import Mathlib

/-!
# Verification of the stock trading engine (`src/Stockengine.py`)

A shallow embedding of the matching engine.  Python linked lists become
`List Order` (a node's `next` pointer is the tail position), Python `float`
prices and timestamps become `ℚ` (the spec demands exact comparison),
Python `int` quantities become `Int`, and the mutable
`StockTradingEngine` object becomes an explicit state record threaded
through the operations.  Exceptions become `Except EngineError`.

Sequential executions are modelled exactly; for the optimistic-concurrency
protocol the single point at which another thread can be observed by this
code is the version compare-and-swap at the end of a matching attempt, so
a matching call additionally takes a list of booleans (`bumps`) saying, for
each attempt, whether a competing committer incremented the book's version
between this call's snapshot and its CAS (making the CAS fail).  An empty
list models the uncontended (sequential) execution, in which the CAS of the
first attempt always succeeds.
-/

set_option linter.unusedVariables false

/-- Side of an order: the `OrderType` enum of the source. -/
inductive OrderType where
  | BUY
  | SELL
deriving DecidableEq, Repr

/-- The `Order` record.  The `next` pointer of the source's singly linked
list is represented by membership in a `List Order`. -/
structure Order where
  id : Nat
  type : OrderType
  ticker_index : Nat
  quantity : Int
  price : ℚ
  timestamp : ℚ
  is_active : Bool
deriving DecidableEq, Repr

/-- The `Trade` record of the source. -/
structure Trade where
  buy_order_id : Nat
  sell_order_id : Nat
  ticker_index : Nat
  quantity : Int
  price : ℚ
  timestamp : ℚ
deriving DecidableEq, Repr

/-- The `OrderBook` record: the two linked lists (from `buy_head` and
`sell_head`) and the optimistic version counter. -/
structure OrderBook where
  ticker_index : Nat
  buy_orders : List Order
  sell_orders : List Order
  version : Nat
deriving DecidableEq, Repr

instance : Inhabited OrderBook := ⟨⟨0, [], [], 0⟩⟩

/-- The mutable state of the `StockTradingEngine` object
(`threading.local` carries no engine state and is omitted). -/
structure StockTradingEngine where
  max_tickers : Nat
  order_books : List OrderBook
  ticker_symbols : List String
  order_counter : Nat
  executed_trades : List Trade
deriving DecidableEq, Repr

/-- Error kinds raised by the engine: the validation `ValueError`s of
`addOrder` and the `No space for new ticker` error of
`_get_ticker_index`. -/
inductive EngineError where
  | InvalidInput
  | CapacityExceeded
deriving DecidableEq, Repr

/-- `f"STOCK{i:04d}"`: decimal rendering zero-padded to width 4. -/
def ticker_name (i : Nat) : String :=
  let s := toString i
  String.mk (List.replicate (4 - s.length) '0') ++ s |> ("STOCK" ++ ·)

/-- `StockTradingEngine.__init__`: empty books, the ticker-symbol array
pre-populated with `STOCK0000`, `STOCK0001`, …, counter at zero, empty
journal. -/
def initEngine (max_tickers : Nat) : StockTradingEngine where
  max_tickers := max_tickers
  order_books := (List.range max_tickers).map fun i => ⟨i, [], [], 0⟩
  ticker_symbols := (List.range max_tickers).map ticker_name
  order_counter := 0
  executed_trades := []

/-- `_get_ticker_index`, as a function of the `ticker_symbols` array:
first linear scan for an exact match; failing that, a second scan for the
first empty slot, which is assigned the ticker; otherwise the
`No space for new ticker` error (`none`). -/
def get_ticker_index (syms : List String) (ticker : String) :
    Option (Nat × List String) :=
  match syms.findIdx? (fun s => s == ticker) with
  | some i => some (i, syms)
  | none =>
    match syms.findIdx? (fun s => s == "") with
    | some i => some (i, syms.set i ticker)
    | none => none

/-- `_insert_order_sorted`: walk to the first node the new order must
precede — for BUY a strictly higher price, for SELL a strictly lower
price, or an equal price with a strictly earlier timestamp — and insert
just before it (the source's separate new-head check is the first
iteration of this walk). -/
def insert_order_sorted : List Order → Order → List Order
  | [], new_order => [new_order]
  | head :: rest, new_order =>
    if (new_order.type = OrderType.BUY ∧ head.price < new_order.price) ∨
       (new_order.type = OrderType.SELL ∧ new_order.price < head.price) ∨
       (new_order.price = head.price ∧ new_order.timestamp < head.timestamp) then
      new_order :: head :: rest
    else
      head :: insert_order_sorted rest new_order

/-- Body of the inner matching loop of `matchOrder` (source lines
301–329), with an explicit step budget.  The "local" heads alias the
book's nodes, so the returned buy and sell lists are the book's lists with
the loop's in-place mutations (quantity decrements and active-flag clears)
applied; the first component is the `local_trades` batch.  Every iteration
of the source loop walks past at least one node of one of the two lists
(`q = min` zeroes at least one top's remainder), so a budget of
`buys.length + sells.length` — supplied by `match_loop` below — is never
exhausted; the budget exists only to make the recursion structural.  In
the branch where the buy top keeps a nonzero remainder, the sell top's
remainder is zero, so the sell head advances exactly as in the source. -/
def match_loop_fuel (tix : Nat) (ts : ℚ) :
    Nat → List Order → List Order → List Trade × List Order × List Order
  | _, [], sells => ([], [], sells)
  | _, b :: bs, [] => ([], b :: bs, [])
  | 0, buys, sells => ([], buys, sells)
  | fuel + 1, b :: bs, s :: ss =>
    if b.is_active = false then
      let r := match_loop_fuel tix ts fuel bs (s :: ss)
      (r.1, b :: r.2.1, r.2.2)
    else if s.is_active = false then
      let r := match_loop_fuel tix ts fuel (b :: bs) ss
      (r.1, r.2.1, s :: r.2.2)
    else if s.price ≤ b.price then
      let q := min b.quantity s.quantity
      let t : Trade := ⟨b.id, s.id, tix, q, s.price, ts⟩
      let b' : Order := { b with quantity := b.quantity - q,
                                 is_active := decide (b.quantity - q ≠ 0) }
      let s' : Order := { s with quantity := s.quantity - q,
                                 is_active := decide (s.quantity - q ≠ 0) }
      if b.quantity - q = 0 then
        if s.quantity - q = 0 then
          let r := match_loop_fuel tix ts fuel bs ss
          (t :: r.1, b' :: r.2.1, s' :: r.2.2)
        else
          let r := match_loop_fuel tix ts fuel bs (s' :: ss)
          (t :: r.1, b' :: r.2.1, r.2.2)
      else
        let r := match_loop_fuel tix ts fuel (b' :: bs) ss
        (t :: r.1, r.2.1, s' :: r.2.2)
    else
      ([], b :: bs, s :: ss)

/-- The inner matching loop of `matchOrder` (source lines 301–329). -/
def match_loop (tix : Nat) (ts : ℚ) (buys sells : List Order) :
    List Trade × List Order × List Order :=
  match_loop_fuel tix ts (buys.length + sells.length) buys sells

/-- `_mark_order_inactive`: clear the active flag of the first node with
the given id that is still active. -/
def mark_order_inactive : List Order → Nat → List Order
  | [], _ => []
  | o :: rest, oid =>
    if o.id = oid ∧ o.is_active = true then
      { o with is_active := false } :: rest
    else
      o :: mark_order_inactive rest oid

/-- The post-commit marking pass of `matchOrder` (lines 333–335): for each
trade of the batch, in order, mark its buy order in the buy list and its
sell order in the sell list. -/
def mark_trades (trades : List Trade) (buys sells : List Order) :
    List Order × List Order :=
  trades.foldl
    (fun p t => (mark_order_inactive p.1 t.buy_order_id,
                 mark_order_inactive p.2 t.sell_order_id))
    (buys, sells)

/-- First phase of `_cleanup_inactive_orders` on one list: advance the
head past leading inactive nodes. -/
def drop_leading_inactive : List Order → List Order
  | [] => []
  | o :: rest => if o.is_active = true then o :: rest else drop_leading_inactive rest

/-- The `current`-node walk of the second phase of
`_cleanup_inactive_orders`: `cur` is the node `current` points at and the
list is what hangs off `current.next`; an inactive successor is spliced
out, an active one becomes the new `current`. -/
def splice_from (cur : Order) : List Order → List Order
  | [] => [cur]
  | o2 :: rest =>
    if o2.is_active = true then cur :: splice_from o2 rest
    else splice_from cur rest

/-- Second phase of `_cleanup_inactive_orders` on one list: walk the whole
list and splice out every inactive successor. -/
def splice_inactive : List Order → List Order
  | [] => []
  | o :: rest => splice_from o rest

/-- `_cleanup_inactive_orders` on one linked list. -/
def cleanup_list (l : List Order) : List Order :=
  splice_inactive (drop_leading_inactive l)

/-- `_cleanup_inactive_orders` on a book: both lists are cleaned. -/
def cleanup_inactive_orders (book : OrderBook) : OrderBook :=
  { book with buy_orders := cleanup_list book.buy_orders,
              sell_orders := cleanup_list book.sell_orders }

/-- The success branch of `matchOrder`'s CAS (lines 332–342): bump the
version, run the marking pass over the (aliased, already mutated) lists,
clean both lists, extend the journal with the batch and return it. -/
def commit_match (e : StockTradingEngine) (tix : Nat) (book : OrderBook)
    (local_trades : List Trade) (rb rs : List Order) :
    StockTradingEngine × List Trade :=
  let p := mark_trades local_trades rb rs
  let book' := cleanup_inactive_orders
    { book with buy_orders := p.1, sell_orders := p.2, version := book.version + 1 }
  ({ e with order_books := e.order_books.set tix book',
            executed_trades := e.executed_trades ++ local_trades },
   local_trades)

/-- The retry loop of `matchOrder` with `fuel = max_retries - retry_count`
remaining attempts.  Each attempt snapshots the book, returns the empty
batch if either side is empty, runs the matching pass (whose mutations
land in the shared lists), and attempts the version CAS.  `bumps` says for
each attempt whether a competing committer incremented the version after
the snapshot: then the CAS fails and the attempt retries, but the pass's
in-place mutations remain in the book; with no interference the CAS
succeeds and the attempt commits.  (Out-of-range indices, never produced
by the engine, read a default empty book.) -/
def matchOrder_attempts (tix : Nat) (ts : ℚ) :
    Nat → List Bool → StockTradingEngine → StockTradingEngine × List Trade
  | 0, _, e => (e, [])
  | fuel + 1, bumps, e =>
    let book := e.order_books.getD tix default
    if book.buy_orders = [] ∨ book.sell_orders = [] then (e, [])
    else
      let r := match_loop tix ts book.buy_orders book.sell_orders
      match bumps with
      | [] => commit_match e tix book r.1 r.2.1 r.2.2
      | bump :: rest =>
        if bump then
          let book' := { book with buy_orders := r.2.1, sell_orders := r.2.2,
                                   version := book.version + 1 }
          matchOrder_attempts tix ts fuel rest
            { e with order_books := e.order_books.set tix book' }
        else
          commit_match e tix book r.1 r.2.1 r.2.2

/-- `matchOrder` under a given interference schedule (`max_retries = 10`). -/
def matchOrder_conc (bumps : List Bool) (e : StockTradingEngine)
    (tix : Nat) (ts : ℚ) : StockTradingEngine × List Trade :=
  matchOrder_attempts tix ts 10 bumps e

/-- `matchOrder` in an uncontended execution: the first CAS succeeds. -/
def matchOrder (e : StockTradingEngine) (tix : Nat) (ts : ℚ) :
    StockTradingEngine × List Trade :=
  matchOrder_conc [] e tix ts

/-- `addOrder` under a given interference schedule for its matching call.
Validation happens before any state is touched (the `isinstance` checks on
the side, quantity and price are the typing of the arguments); then the
ticker is resolved (possibly assigning a slot), an id is allocated
(`_get_next_order_id` returns the old counter), the order is stamped and
inserted into its side's list, and matching runs.  The returned engine is
the state after the call; the `Except` is the returned id or the raised
error. -/
def addOrder_conc (bumps : List Bool) (e : StockTradingEngine)
    (order_type : OrderType) (ticker : String) (quantity : Int) (price : ℚ)
    (ts : ℚ) : StockTradingEngine × Except EngineError Nat :=
  if ticker = "" then (e, .error .InvalidInput)
  else if quantity ≤ 0 then (e, .error .InvalidInput)
  else if price ≤ 0 then (e, .error .InvalidInput)
  else
    match get_ticker_index e.ticker_symbols ticker with
    | none => (e, .error .CapacityExceeded)
    | some (tix, syms) =>
      let order_id := e.order_counter
      let new_order : Order := ⟨order_id, order_type, tix, quantity, price, ts, true⟩
      let e1 := { e with ticker_symbols := syms, order_counter := order_id + 1 }
      let book := e1.order_books.getD tix default
      let book' :=
        if order_type = OrderType.BUY then
          { book with buy_orders := insert_order_sorted book.buy_orders new_order }
        else
          { book with sell_orders := insert_order_sorted book.sell_orders new_order }
      let e2 := { e1 with order_books := e1.order_books.set tix book' }
      let r := matchOrder_conc bumps e2 tix ts
      (r.1, .ok order_id)

/-- `addOrder` in an uncontended execution. -/
def addOrder (e : StockTradingEngine) (order_type : OrderType) (ticker : String)
    (quantity : Int) (price : ℚ) (ts : ℚ) :
    StockTradingEngine × Except EngineError Nat :=
  addOrder_conc [] e order_type ticker quantity price ts

/-- One submission of the external workload: the arguments of one
`addOrder` call. -/
structure SubmitOp where
  order_type : OrderType
  ticker : String
  quantity : Int
  price : ℚ
deriving DecidableEq, Repr

/-- The observable record of one accepted submission: the id `addOrder`
returned together with the submitted side, quantity and price. -/
structure Submitted where
  id : Nat
  type : OrderType
  quantity : Int
  price : ℚ
deriving DecidableEq, Repr

/-- Run a sequence of `addOrder` calls sequentially (each call completes
before the next starts), stamping strictly increasing timestamps (the
call counter, standing in for `time.time()`), and collect the `Submitted`
record of every accepted call. -/
def runOpsAux : StockTradingEngine → Nat → List SubmitOp →
    StockTradingEngine × List Submitted
  | e, _, [] => (e, [])
  | e, t, op :: rest =>
    match addOrder e op.order_type op.ticker op.quantity op.price (t : ℚ) with
    | (e1, .ok oid) =>
      let r := runOpsAux e1 (t + 1) rest
      (r.1, ⟨oid, op.order_type, op.quantity, op.price⟩ :: r.2)
    | (e1, .error _) => runOpsAux e1 (t + 1) rest

/-- The engine state at quiescence after a sequence of completed
submissions. -/
def runOps (max_tickers : Nat) (ops : List SubmitOp) : StockTradingEngine :=
  (runOpsAux (initEngine max_tickers) 0 ops).1

/-- The accepted submissions of a run. -/
def submittedTrace (max_tickers : Nat) (ops : List SubmitOp) : List Submitted :=
  (runOpsAux (initEngine max_tickers) 0 ops).2

/-- The id a trade credits on a given side. -/
def trade_party (side : OrderType) (t : Trade) : Nat :=
  match side with
  | .BUY => t.buy_order_id
  | .SELL => t.sell_order_id

/-- Total quantity the journal fills against a given order id on a given
side. -/
def fill_sum (side : OrderType) (oid : Nat) (trades : List Trade) : Int :=
  (trades.map fun t => if trade_party side t = oid then t.quantity else 0).sum

/-- Total remaining quantity carried by orders with a given id in a list. -/
def list_qty (oid : Nat) (l : List Order) : Int :=
  (l.map fun o => if o.id = oid then o.quantity else 0).sum

/-- Every order currently resting in any book of the engine. -/
def all_orders (e : StockTradingEngine) : List Order :=
  e.order_books.flatMap fun b => b.buy_orders ++ b.sell_orders

deriving instance DecidableEq for Except

/-- The declared sort key of a book side: bids by price descending then
arrival ascending, asks by price ascending then arrival ascending
(`a` precedes-or-ties `b`). -/
def book_le : OrderType → Order → Order → Prop
  | .BUY, a, b => b.price < a.price ∨ (a.price = b.price ∧ a.timestamp ≤ b.timestamp)
  | .SELL, a, b => a.price < b.price ∨ (a.price = b.price ∧ a.timestamp ≤ b.timestamp)

/-- Total remaining quantity carried, on the given side of the books, by
orders with the given id. -/
def side_qty (side : OrderType) (oid : Nat) (e : StockTradingEngine) : Int :=
  match side with
  | .BUY => (e.order_books.map fun bk => list_qty oid bk.buy_orders).sum
  | .SELL => (e.order_books.map fun bk => list_qty oid bk.sell_orders).sum

/-- Two orders agreeing on every field the matching pass never mutates
(everything but `quantity` and `is_active`). -/
def same_key (a b : Order) : Prop :=
  b.id = a.id ∧ b.type = a.type ∧ b.ticker_index = a.ticker_index ∧
  b.price = a.price ∧ b.timestamp = a.timestamp

/-- The element either is untouched or its id is among the given ids. -/
def untouched_or (ids : List Nat) (a b : Order) : Prop :=
  b = a ∨ a.id ∈ ids

/-- The buy-side ids referenced by a trade batch. -/
def buy_ids (tr : List Trade) : List Nat := tr.map Trade.buy_order_id

/-- The sell-side ids referenced by a trade batch. -/
def sell_ids (tr : List Trade) : List Nat := tr.map Trade.sell_order_id

/-- Effect of `_mark_order_inactive` on one node: unchanged, or only the
active flag cleared. -/
def mark_rel (a b : Order) : Prop :=
  b = a ∨ b = { a with is_active := false }

/-- The part of the engine invariant, relative to the record `trace` of
the accepted submissions, that also holds in the middle of an `addOrder`
call, after the new order is inserted and before matching runs. -/
structure PreInv (e : StockTradingEngine) (trace : List Submitted) : Prop where
  books_len : e.order_books.length = e.max_tickers
  syms_len : e.ticker_symbols.length = e.max_tickers
  buy_sorted : ∀ bk ∈ e.order_books, List.Pairwise (book_le OrderType.BUY) bk.buy_orders
  sell_sorted : ∀ bk ∈ e.order_books, List.Pairwise (book_le OrderType.SELL) bk.sell_orders
  buy_types : ∀ bk ∈ e.order_books, ∀ o ∈ bk.buy_orders, o.type = OrderType.BUY
  sell_types : ∀ bk ∈ e.order_books, ∀ o ∈ bk.sell_orders, o.type = OrderType.SELL
  all_active : ∀ o ∈ all_orders e, o.is_active = true
  qpos : ∀ o ∈ all_orders e, 0 < o.quantity
  ids_lt : ∀ o ∈ all_orders e, o.id < e.order_counter
  global_nodup : ((all_orders e).map Order.id).Nodup
  order_from_trace : ∀ o ∈ all_orders e,
    (⟨o.id, o.type, o.quantity, o.price⟩ : Submitted) ∈ trace
  trace_ids_lt : ∀ s ∈ trace, s.id < e.order_counter
  trace_nodup : (trace.map Submitted.id).Nodup
  trace_pos : ∀ s ∈ trace, 0 < s.quantity ∧ 0 < s.price
  journal_ids_lt : ∀ t ∈ e.executed_trades,
    t.buy_order_id < e.order_counter ∧ t.sell_order_id < e.order_counter
  fills : ∀ s ∈ trace,
    fill_sum s.type s.id e.executed_trades + side_qty s.type s.id e ≤ s.quantity
  journal_buy : ∀ t ∈ e.executed_trades,
    ∃ s ∈ trace, s.id = t.buy_order_id ∧ s.type = OrderType.BUY ∧ t.price ≤ s.price
  journal_sell : ∀ t ∈ e.executed_trades,
    ∃ s ∈ trace, s.id = t.sell_order_id ∧ s.type = OrderType.SELL ∧ t.price = s.price
  journal_qty_pos : ∀ t ∈ e.executed_trades, 0 < t.quantity

/-- The invariant of the quiescent engine: `PreInv` together with the
books being non-crossing. -/
def EngineInv (e : StockTradingEngine) (trace : List Submitted) : Prop :=
  PreInv e trace ∧
  ∀ bk ∈ e.order_books, ∀ b ∈ bk.buy_orders, ∀ s ∈ bk.sell_orders, b.price < s.price

/-! ## Cleanup: the splice pass removes every inactive order -/

theorem splice_from_eq_filter (cur : Order) (l : List Order) :
    splice_from cur l = cur :: l.filter (fun o => o.is_active) := by
  induction l generalizing cur with
  | nil => rfl
  | cons o2 rest ih =>
    by_cases h : o2.is_active = true
    · simp [splice_from, h, List.filter_cons, ih]
    · simp [splice_from, h, List.filter_cons, ih]

theorem cleanup_list_eq_filter (l : List Order) :
    cleanup_list l = l.filter (fun o => o.is_active) := by
  induction l with
  | nil => rfl
  | cons o rest ih =>
    by_cases h : o.is_active = true
    · simp [cleanup_list, drop_leading_inactive, splice_inactive, h,
        splice_from_eq_filter, List.filter_cons]
    · simpa [cleanup_list, drop_leading_inactive, splice_inactive, h,
        List.filter_cons] using ih

theorem matchOrder_attempts_empty_side (tix : Nat) (ts : ℚ) (fuel : Nat)
    (bumps : List Bool) (e : StockTradingEngine)
    (h : (e.order_books.getD tix default).buy_orders = [] ∨
         (e.order_books.getD tix default).sell_orders = []) :
    matchOrder_attempts tix ts fuel bumps e = (e, []) := by
  cases fuel with
  | zero => rfl
  | succ fuel =>
    simp only [matchOrder_attempts]
    rw [if_pos h]

/-- C10: if, at the snapshot taken at the start of `matchOrder`, the
book's buy list or sell list is empty, `matchOrder` returns the empty
trade list and the whole engine state — in particular the book's version
counter, its lists (no cleanup runs) and the journal — is returned
unchanged. -/
theorem C10_matchOrder_empty_side_is_noop (e : StockTradingEngine) (tix : Nat) (ts : ℚ)
    (h : (e.order_books.getD tix default).buy_orders = [] ∨
         (e.order_books.getD tix default).sell_orders = []) :
    matchOrder e tix ts = (e, []) :=
  matchOrder_attempts_empty_side tix ts 10 [] e h

/-- Witness for C10: a one-ticker engine holding a single resting buy
order and no sell order; `matchOrder` is the identity on it. -/
theorem C10_witness :
    matchOrder (runOps 1 [⟨.BUY, "STOCK0000", 10, 100⟩]) 0 7 =
      (runOps 1 [⟨.BUY, "STOCK0000", 10, 100⟩], []) :=
  C10_matchOrder_empty_side_is_noop _ 0 7 (Or.inr (by decide))

/-- C9: `_cleanup_inactive_orders` splices the *entire* lists — each
cleaned list is exactly the input list with every inactive node removed —
and therefore, after every successful commit inside `matchOrder` (every
commit goes through `commit_match`), the affected book holds no inactive
order anywhere in either list. -/
theorem C9_cleanup_scans_whole_lists :
    (∀ l : List Order, cleanup_list l = l.filter (fun o => o.is_active)) ∧
    (∀ (e : StockTradingEngine) (tix : Nat) (book : OrderBook)
       (tr : List Trade) (rb rs : List Order),
       tix < e.order_books.length →
       ∀ bk, (commit_match e tix book tr rb rs).1.order_books[tix]? = some bk →
         (∀ o ∈ bk.buy_orders, o.is_active = true) ∧
         (∀ o ∈ bk.sell_orders, o.is_active = true)) := by
  refine ⟨cleanup_list_eq_filter, ?_⟩
  intro e tix book tr rb rs hlen bk hbk
  simp only [commit_match, List.getElem?_set_self hlen, Option.some.injEq] at hbk
  subst hbk
  constructor
  · intro o ho
    simp only [cleanup_inactive_orders, cleanup_list_eq_filter, List.mem_filter] at ho
    exact ho.2
  · intro o ho
    simp only [cleanup_inactive_orders, cleanup_list_eq_filter, List.mem_filter] at ho
    exact ho.2

/-- Witness for C9: committing on a book whose lists contain an inactive
and an active order leaves only active orders in the installed book. -/
theorem C9_witness :
    cleanup_list [⟨0, .BUY, 0, 0, 10, 0, false⟩, ⟨1, .BUY, 0, 4, 9, 0, true⟩] =
      [⟨1, .BUY, 0, 4, 9, 0, true⟩] ∧
    (∀ bk, (commit_match (initEngine 1) 0 default []
        [⟨0, .BUY, 0, 0, 10, 0, false⟩] [⟨2, .SELL, 0, 3, 10, 0, true⟩]).1.order_books[0]? =
          some bk →
      (∀ o ∈ bk.buy_orders, o.is_active = true) ∧
      (∀ o ∈ bk.sell_orders, o.is_active = true)) := by
  constructor
  · exact (C9_cleanup_scans_whole_lists.1 _).trans (by decide)
  · exact fun bk => C9_cleanup_scans_whole_lists.2 (initEngine 1) 0 default [] _ _ (by decide) bk

/-! ## Symbol resolution -/

/-- C3: resolving a symbol returns the first index already holding it when
one exists (the array unchanged); otherwise it writes the symbol into the
lowest unassigned (empty-string) slot and returns that index; and it fails
(`No space for new ticker`) exactly when the symbol is absent and no slot
is empty, i.e. all slots are taken.  (Resolving the empty string, which
`addOrder` never does, returns the lowest unassigned slot and leaves the
array unchanged — consistent with "assigning" the empty string to it.) -/
theorem C3_get_ticker_index_spec (syms : List String) (ticker : String) :
    (get_ticker_index syms ticker = none ↔ ticker ∉ syms ∧ "" ∉ syms) ∧
    (ticker ∈ syms →
      ∃ i, get_ticker_index syms ticker = some (i, syms) ∧
        syms[i]? = some ticker ∧ ∀ j, j < i → syms[j]? ≠ some ticker) ∧
    (ticker ∉ syms → "" ∈ syms →
      ∃ i, get_ticker_index syms ticker = some (i, syms.set i ticker) ∧
        syms[i]? = some "" ∧ ∀ j, j < i → syms[j]? ≠ some "") := by
  refine ⟨?_, ?_, ?_⟩
  · unfold get_ticker_index
    cases h1 : syms.findIdx? (fun s => s == ticker) with
    | some i =>
      simp only [reduceCtorEq, false_iff]
      intro hc
      have h2 := List.findIdx?_of_eq_some h1
      cases h3 : syms[i]? with
      | none => rw [h3] at h2; exact Bool.false_ne_true h2
      | some a =>
        rw [h3] at h2
        have ha : a ∈ syms := List.getElem?_mem h3
        have h4 : a = ticker := by simpa using h2
        subst h4
        exact hc.1 ha
    | none =>
      cases h2 : syms.findIdx? (fun s => s == "") with
      | some i =>
        simp only [reduceCtorEq, false_iff]
        intro hc
        have h3 := List.findIdx?_of_eq_some h2
        cases h4 : syms[i]? with
        | none => rw [h4] at h3; exact Bool.false_ne_true h3
        | some a =>
          rw [h4] at h3
          have ha : a ∈ syms := List.getElem?_mem h4
          have h5 : a = "" := by simpa using h3
          subst h5
          exact hc.2 ha
      | none =>
        simp only [true_iff]
        rw [List.findIdx?_eq_none_iff] at h1 h2
        constructor
        · intro hm
          have := h1 ticker hm
          simp at this
        · intro hm
          have := h2 "" hm
          simp at this
  · intro hm
    have hex : ∃ x, x ∈ syms ∧ (fun s => s == ticker) x = true := ⟨ticker, hm, by simp⟩
    have h1 := List.findIdx?_eq_some_of_exists hex
    rw [List.findIdx?_eq_some_iff_getElem] at h1
    obtain ⟨hlt, hp, hmin⟩ := h1
    refine ⟨syms.findIdx (fun s => s == ticker), ?_, ?_, ?_⟩
    · unfold get_ticker_index
      rw [List.findIdx?_eq_some_of_exists hex]
    · rw [List.getElem?_eq_getElem hlt]
      simpa using hp
    · intro j hj
      have hjlt : j < syms.length := Nat.lt_trans hj hlt
      rw [List.getElem?_eq_getElem hjlt]
      intro hEq
      have h5 : syms[j] = ticker := by simpa using hEq
      exact (hmin j hj) (by simp [h5])
  · intro hnm hm
    have h1 : syms.findIdx? (fun s => s == ticker) = none := by
      rw [List.findIdx?_eq_none_iff]
      intro x hx
      simp only [beq_eq_false_iff_ne, ne_eq]
      intro hEq
      subst hEq
      exact hnm hx
    have hex : ∃ x, x ∈ syms ∧ (fun s => s == "") x = true := ⟨"", hm, by simp⟩
    have h2 := List.findIdx?_eq_some_of_exists hex
    rw [List.findIdx?_eq_some_iff_getElem] at h2
    obtain ⟨hlt, hp, hmin⟩ := h2
    refine ⟨syms.findIdx (fun s => s == ""), ?_, ?_, ?_⟩
    · unfold get_ticker_index
      rw [h1, List.findIdx?_eq_some_of_exists hex]
    · rw [List.getElem?_eq_getElem hlt]
      simpa using hp
    · intro j hj
      have hjlt : j < syms.length := Nat.lt_trans hj hlt
      rw [List.getElem?_eq_getElem hjlt]
      intro hEq
      have h5 : syms[j] = "" := by simpa using hEq
      exact (hmin j hj) (by simp [h5])

/-- Witness for C3: a three-slot array with one empty slot; looking up an
assigned symbol returns its index, looking up a fresh symbol assigns the
empty slot. -/
theorem C3_witness :
    ("B" ∈ ["A", "", "B"] ∧
      ∃ i, get_ticker_index ["A", "", "B"] "B" = some (i, ["A", "", "B"]) ∧
        ["A", "", "B"][i]? = some "B" ∧ ∀ j, j < i → ["A", "", "B"][j]? ≠ some "B") ∧
    ("C" ∉ ["A", "", "B"] ∧ "" ∈ ["A", "", "B"] ∧
      ∃ i, get_ticker_index ["A", "", "B"] "C" = some (i, (["A", "", "B"].set i "C")) ∧
        ["A", "", "B"][i]? = some "" ∧ ∀ j, j < i → ["A", "", "B"][j]? ≠ some "") := by
  refine ⟨⟨by decide, (C3_get_ticker_index_spec ["A", "", "B"] "B").2.1 (by decide)⟩,
         ⟨by decide, by decide, (C3_get_ticker_index_spec ["A", "", "B"] "C").2.2 (by decide) (by decide)⟩⟩

/-! ## Submission validation -/

/-- C6: `addOrder` rejects with `InvalidInput` exactly when the quantity
is not positive, the price is not strictly positive, or the ticker is the
empty string (the remaining source preconditions — the side being a valid
`OrderType` and the quantity and price being an `int` and a `float` — are
the typing of the embedded arguments); and every rejected call (also a
`CapacityExceeded` rejection) returns the engine state unchanged: no
symbol assigned, no id consumed, no book or journal touched. -/
theorem C6_addOrder_validation (e : StockTradingEngine) (order_type : OrderType)
    (ticker : String) (quantity : Int) (price : ℚ) (ts : ℚ) :
    ((addOrder e order_type ticker quantity price ts).2 =
        Except.error EngineError.InvalidInput ↔
      (quantity ≤ 0 ∨ price ≤ 0 ∨ ticker = "")) ∧
    (∀ err : EngineError,
      (addOrder e order_type ticker quantity price ts).2 = Except.error err →
      (addOrder e order_type ticker quantity price ts).1 = e) := by
  unfold addOrder addOrder_conc
  by_cases ht : ticker = ""
  · simp [ht]
  · by_cases hq : quantity ≤ 0
    · simp [ht, hq]
    · by_cases hp : price ≤ 0
      · simp [ht, hq, hp]
      · cases hg : get_ticker_index e.ticker_symbols ticker with
        | none => simp [ht, hq, hp, hg]
        | some p => simp [ht, hq, hp, hg]

/-- Witness for C6: a zero quantity is rejected as `InvalidInput` with the
engine unchanged; and the rejection equivalence evaluated at a valid
input. -/
theorem C6_witness :
    ((addOrder (initEngine 1) .BUY "STOCK0000" 0 5 0).2 =
        Except.error EngineError.InvalidInput ↔
      ((0 : Int) ≤ 0 ∨ (5 : ℚ) ≤ 0 ∨ "STOCK0000" = "")) ∧
    ((addOrder (initEngine 1) .BUY "STOCK0000" 0 5 0).2 =
        Except.error EngineError.InvalidInput →
      (addOrder (initEngine 1) .BUY "STOCK0000" 0 5 0).1 = initEngine 1) :=
  ⟨(C6_addOrder_validation (initEngine 1) .BUY "STOCK0000" 0 5 0).1,
   (C6_addOrder_validation (initEngine 1) .BUY "STOCK0000" 0 5 0).2 EngineError.InvalidInput⟩

/-! ## Concrete executions deciding C1, C2 and C4 -/

/-- C1 is violated by the code (spec scenario S2): submitting
`SELL 5 @50` (id 0) then `BUY 10 @60` (id 1) commits one trade of
quantity 5, so order 1 keeps remaining quantity `10 - 5 = 5 > 0`; the
claim requires it to stay active in its book, but the commit path of
`matchOrder` marks every traded order inactive (`_mark_order_inactive` is
called for the partially filled buy as well) and the cleanup pass removes
it: both book sides end empty. -/
theorem C1_partial_fill_deactivated_and_evicted :
    (runOps 1 [⟨.SELL, "STOCK0000", 5, 50⟩, ⟨.BUY, "STOCK0000", 10, 60⟩]).order_books =
      [⟨0, [], [], 1⟩] ∧
    (runOps 1 [⟨.SELL, "STOCK0000", 5, 50⟩, ⟨.BUY, "STOCK0000", 10, 60⟩]).executed_trades =
      [⟨1, 0, 0, 5, 50, 1⟩] ∧
    submittedTrace 1 [⟨.SELL, "STOCK0000", 5, 50⟩, ⟨.BUY, "STOCK0000", 10, 60⟩] =
      [⟨0, .SELL, 5, 50⟩, ⟨1, .BUY, 10, 60⟩] ∧
    fill_sum .BUY 1
      (runOps 1 [⟨.SELL, "STOCK0000", 5, 50⟩, ⟨.BUY, "STOCK0000", 10, 60⟩]).executed_trades = 5 := by
  decide

/-- C2 as stated is violated by the code: order 0 (`BUY 10 @100`) rests
alone in the book, then order 1 (`SELL 10 @90`) arrives and crosses it.
The resting counterparty's limit price is 100, but the committed trade's
price is 90 — `matchOrder` always uses the *sell* order's price, whether
or not the sell side was resting. -/
theorem C2_counterexample :
    (runOps 1 [⟨.BUY, "STOCK0000", 10, 100⟩]).order_books =
      [⟨0, [⟨0, .BUY, 0, 10, 100, 0, true⟩], [], 0⟩] ∧
    (runOps 1 [⟨.BUY, "STOCK0000", 10, 100⟩, ⟨.SELL, "STOCK0000", 10, 90⟩]).executed_trades =
      [⟨0, 1, 0, 10, 90, 1⟩] ∧
    ((90 : ℚ) ≠ 100) := by
  decide

/-- C4 is violated by the code: starting from a book holding the resting
order `BUY 10 @100` (id 0), a call that submits the crossing `SELL 10 @90`
while a competing commit makes the first version CAS fail loses both
orders without publishing any trade.  The matching pass mutates the shared
nodes *before* the CAS (the "local copies" of the source are aliases), so
the failed commit leaves both orders filled and inactive; the retry then
finds no active pair, commits nothing, and cleanup removes the corpses.
The claim that a failed CAS "makes no changes" is false: no trade was
returned or journalled, yet both orders' quantities and flags changed and
both left the book. -/
theorem C4_failed_cas_mutates_state :
    (runOps 1 [⟨.BUY, "STOCK0000", 10, 100⟩]).order_books =
      [⟨0, [⟨0, .BUY, 0, 10, 100, 0, true⟩], [], 0⟩] ∧
    (addOrder_conc [true] (runOps 1 [⟨.BUY, "STOCK0000", 10, 100⟩])
        .SELL "STOCK0000" 10 90 1) =
      ({ max_tickers := 1, order_books := [⟨0, [], [], 2⟩],
         ticker_symbols := ["STOCK0000"], order_counter := 2,
         executed_trades := [] }, Except.ok 1) := by
  decide

/-- C7's same-price placement rule is violated at equal timestamps:
inserting a BUY at price 100 with timestamp 5 into a list holding a BUY at
price 100 with the same timestamp 5 places the new order *after* the
existing one although its arrival timestamp is not later. -/
theorem C7_counterexample :
    insert_order_sorted [⟨0, .BUY, 0, 10, 100, 5, true⟩] ⟨1, .BUY, 0, 7, 100, 5, true⟩ =
      [⟨0, .BUY, 0, 10, 100, 5, true⟩, ⟨1, .BUY, 0, 7, 100, 5, true⟩] ∧
    ¬ ((5 : ℚ) < 5) := by
  decide

/-! ## Order-key and bookkeeping basics -/

theorem book_le_refl (side : OrderType) (a : Order) : book_le side a a := by
  cases side <;> simp [book_le]

theorem book_le_trans (side : OrderType) {a b c : Order}
    (h1 : book_le side a b) (h2 : book_le side b c) : book_le side a c := by
  cases side <;> simp only [book_le] at h1 h2 ⊢ <;>
    rcases h1 with h1 | ⟨h1p, h1t⟩ <;> rcases h2 with h2 | ⟨h2p, h2t⟩
  · exact Or.inl (h2.trans h1)
  · exact Or.inl (h2p ▸ h1)
  · exact Or.inl (h1p ▸ h2)
  · exact Or.inr ⟨h1p.trans h2p, h1t.trans h2t⟩
  · exact Or.inl (h1.trans h2)
  · exact Or.inl (h2p ▸ h1)
  · exact Or.inl (h1p ▸ h2)
  · exact Or.inr ⟨h1p.trans h2p, h1t.trans h2t⟩

theorem book_le_total (side : OrderType) (a b : Order) :
    book_le side a b ∨ book_le side b a := by
  cases side <;> simp only [book_le] <;>
    rcases lt_trichotomy a.price b.price with h | h | h
  · exact Or.inr (Or.inl h)
  · rcases le_total a.timestamp b.timestamp with ht | ht
    · exact Or.inl (Or.inr ⟨h, ht⟩)
    · exact Or.inr (Or.inr ⟨h.symm, ht⟩)
  · exact Or.inl (Or.inl h)
  · exact Or.inl (Or.inl h)
  · rcases le_total a.timestamp b.timestamp with ht | ht
    · exact Or.inl (Or.inr ⟨h, ht⟩)
    · exact Or.inr (Or.inr ⟨h.symm, ht⟩)
  · exact Or.inr (Or.inl h)

theorem same_key_price {a b : Order} (h : same_key a b) : b.price = a.price := h.2.2.2.1

theorem book_le_of_same_key (side : OrderType) {a a' b b' : Order}
    (ha : same_key a a') (hb : same_key b b') (h : book_le side a b) :
    book_le side a' b' := by
  obtain ⟨-, -, -, hap, hat⟩ := ha
  obtain ⟨-, -, -, hbp, hbt⟩ := hb
  cases side <;> simp only [book_le, hap, hat, hbp, hbt] at h ⊢ <;> exact h

theorem fill_sum_nil (side : OrderType) (oid : Nat) : fill_sum side oid [] = 0 := rfl

theorem fill_sum_cons (side : OrderType) (oid : Nat) (t : Trade) (tr : List Trade) :
    fill_sum side oid (t :: tr) =
      (if trade_party side t = oid then t.quantity else 0) + fill_sum side oid tr := by
  simp [fill_sum]

theorem fill_sum_append (side : OrderType) (oid : Nat) (l1 l2 : List Trade) :
    fill_sum side oid (l1 ++ l2) = fill_sum side oid l1 + fill_sum side oid l2 := by
  simp [fill_sum]

theorem fill_sum_eq_zero {side : OrderType} {oid : Nat} {tr : List Trade}
    (h : ∀ t ∈ tr, trade_party side t ≠ oid) : fill_sum side oid tr = 0 := by
  induction tr with
  | nil => rfl
  | cons t tr ih =>
    rw [fill_sum_cons, if_neg (h t (List.mem_cons_self t tr)), ih fun x hx => h x (List.mem_cons_of_mem t hx)]
    ring

theorem list_qty_nil (oid : Nat) : list_qty oid [] = 0 := rfl

theorem list_qty_cons (oid : Nat) (o : Order) (l : List Order) :
    list_qty oid (o :: l) = (if o.id = oid then o.quantity else 0) + list_qty oid l := by
  simp [list_qty]

theorem list_qty_append (oid : Nat) (l1 l2 : List Order) :
    list_qty oid (l1 ++ l2) = list_qty oid l1 + list_qty oid l2 := by
  simp [list_qty]

theorem list_qty_eq_zero {oid : Nat} {l : List Order}
    (h : ∀ o ∈ l, o.id ≠ oid) : list_qty oid l = 0 := by
  induction l with
  | nil => rfl
  | cons o l ih =>
    rw [list_qty_cons, if_neg (h o (List.mem_cons_self o l)), ih fun x hx => h x (List.mem_cons_of_mem o hx)]
    ring

theorem list_qty_nonneg {oid : Nat} {l : List Order}
    (h : ∀ o ∈ l, 0 ≤ o.quantity) : 0 ≤ list_qty oid l := by
  induction l with
  | nil => exact le_refl 0
  | cons o l ih =>
    rw [list_qty_cons]
    have h1 := h o (List.mem_cons_self o l)
    have h2 := ih fun x hx => h x (List.mem_cons_of_mem o hx)
    split <;> omega

theorem list_qty_filter_le {oid : Nat} {l : List Order} (p : Order → Bool)
    (h : ∀ o ∈ l, 0 ≤ o.quantity) :
    list_qty oid (l.filter p) ≤ list_qty oid l := by
  induction l with
  | nil => exact le_refl 0
  | cons o l ih =>
    have h1 := h o (List.mem_cons_self o l)
    have h2 := ih fun x hx => h x (List.mem_cons_of_mem o hx)
    rw [List.filter_cons]
    split
    · rw [list_qty_cons, list_qty_cons]
      omega
    · rw [list_qty_cons]
      split <;> omega

theorem forall₂_mem_right {R : Order → Order → Prop} {l l' : List Order}
    (h : List.Forall₂ R l l') : ∀ b ∈ l', ∃ a ∈ l, R a b := by
  induction h with
  | nil => intro b hb; cases hb
  | @cons a b l l' hab htail ih =>
    intro x hx
    rcases List.mem_cons.mp hx with hx | hx
    · exact ⟨a, List.mem_cons_self a l, hx ▸ hab⟩
    · obtain ⟨a0, ha0, hr⟩ := ih x hx
      exact ⟨a0, List.mem_cons_of_mem a ha0, hr⟩

theorem pairwise_of_forall₂_same_key {side : OrderType} {l l' : List Order}
    (h : List.Forall₂ same_key l l') (hp : List.Pairwise (book_le side) l) :
    List.Pairwise (book_le side) l' := by
  induction h with
  | nil => exact List.Pairwise.nil
  | @cons a b l l' hab htail ih =>
    rw [List.pairwise_cons] at hp ⊢
    refine ⟨?_, ih hp.2⟩
    intro x hx
    obtain ⟨a0, ha0, hr⟩ := forall₂_mem_right htail x hx
    exact book_le_of_same_key side hab hr (hp.1 a0 ha0)

theorem map_id_of_forall₂_same_key {l l' : List Order}
    (h : List.Forall₂ same_key l l') : l'.map Order.id = l.map Order.id := by
  induction h with
  | nil => rfl
  | @cons a b l l' hab htail ih => simp [ih, hab.1]

/-! ## Sorted insertion -/

theorem insert_cond_iff (side : OrderType) (o h : Order) (hside : o.type = side) :
    ((o.type = OrderType.BUY ∧ h.price < o.price) ∨
     (o.type = OrderType.SELL ∧ o.price < h.price) ∨
     (o.price = h.price ∧ o.timestamp < h.timestamp)) ↔ ¬ book_le side h o := by
  subst hside
  cases hty : o.type <;> simp only [book_le, reduceCtorEq, false_and,
    false_or, or_false, true_and, not_or, not_and, not_lt, not_le]
  · constructor
    · rintro (hp | ⟨hpe, hts⟩)
      · exact ⟨by linarith, fun he => by linarith⟩
      · exact ⟨by linarith, fun he => by linarith⟩
    · rintro ⟨hp, himp⟩
      rcases lt_or_eq_of_le hp with hlt | heq
      · exact Or.inl hlt
      · exact Or.inr ⟨heq.symm, himp heq⟩
  · constructor
    · rintro (hp | ⟨hpe, hts⟩)
      · exact ⟨by linarith, fun he => by linarith⟩
      · exact ⟨by linarith, fun he => by linarith⟩
    · rintro ⟨hp, himp⟩
      rcases lt_or_eq_of_le hp with hlt | heq
      · exact Or.inl hlt
      · exact Or.inr ⟨heq, himp heq.symm⟩

theorem insert_mem {l : List Order} {o x : Order} :
    x ∈ insert_order_sorted l o ↔ x = o ∨ x ∈ l := by
  induction l with
  | nil => simp [insert_order_sorted]
  | cons h t ih =>
    rw [insert_order_sorted]
    split
    · simp only [List.mem_cons]
    · simp only [List.mem_cons, ih]
      tauto

theorem ts_le_of_book_le_eq (side : OrderType) {a b : Order}
    (h : book_le side a b) (hp : a.price = b.price) : a.timestamp ≤ b.timestamp := by
  cases side <;> simp only [book_le] at h <;>
    rcases h with h | ⟨hpe, hts⟩ <;> first
      | exact absurd h (by rw [hp]; exact lt_irrefl _)
      | exact hts

theorem ts_lt_of_after (side : OrderType) {o h x : Order}
    (hno : ¬ book_le side h o) (hhx : book_le side h x)
    (hpx : x.price = o.price) : o.timestamp < x.timestamp := by
  by_contra hle
  have hxo : book_le side x o := by
    cases side <;> exact Or.inr ⟨hpx, not_lt.mp hle⟩
  exact hno (book_le_trans side hhx hxo)

theorem insert_pairwise (side : OrderType) (l : List Order) (o : Order)
    (hside : o.type = side) (hl : List.Pairwise (book_le side) l) :
    List.Pairwise (book_le side) (insert_order_sorted l o) := by
  induction l with
  | nil => simp [insert_order_sorted]
  | cons h t ih =>
    rw [List.pairwise_cons] at hl
    rw [insert_order_sorted]
    split
    case isTrue hc =>
      have hno : ¬ book_le side h o := (insert_cond_iff side o h hside).mp hc
      have hoh : book_le side o h := (book_le_total side o h).resolve_right hno
      refine List.Pairwise.cons ?_ (List.Pairwise.cons hl.1 hl.2)
      intro x hx
      rcases List.mem_cons.mp hx with rfl | hx
      · exact hoh
      · exact book_le_trans side hoh (hl.1 x hx)
    case isFalse hc =>
      have hho : book_le side h o := by
        have := (insert_cond_iff side o h hside).not.mp hc
        exact not_not.mp this
      refine List.Pairwise.cons ?_ (ih hl.2)
      intro x hx
      rcases insert_mem.mp hx with rfl | hx
      · exact hho
      · exact hl.1 x hx

theorem insert_split (side : OrderType) (l : List Order) (o : Order)
    (hside : o.type = side) (hl : List.Pairwise (book_le side) l) :
    ∃ l₁ l₂, l = l₁ ++ l₂ ∧ insert_order_sorted l o = l₁ ++ o :: l₂ ∧
      (∀ x ∈ l₁, x.price = o.price → x.timestamp ≤ o.timestamp) ∧
      (∀ x ∈ l₂, x.price = o.price → o.timestamp < x.timestamp) := by
  induction l with
  | nil =>
    refine ⟨[], [], rfl, rfl, by simp, by simp⟩
  | cons h t ih =>
    rw [List.pairwise_cons] at hl
    rw [insert_order_sorted]
    split
    case isTrue hc =>
      have hno : ¬ book_le side h o := (insert_cond_iff side o h hside).mp hc
      refine ⟨[], h :: t, rfl, rfl, by simp, ?_⟩
      intro x hx hpx
      have hhx : book_le side h x := by
        rcases List.mem_cons.mp hx with rfl | hx
        · exact book_le_refl side x
        · exact hl.1 x hx
      exact ts_lt_of_after side hno hhx hpx
    case isFalse hc =>
      have hho : book_le side h o := by
        have := (insert_cond_iff side o h hside).not.mp hc
        exact not_not.mp this
      obtain ⟨l₁, l₂, he, hi, hbefore, hafter⟩ := ih hl.2
      refine ⟨h :: l₁, l₂, by simp [he], by simp [hi], ?_, hafter⟩
      intro x hx hpx
      rcases List.mem_cons.mp hx with rfl | hx
      · exact ts_le_of_book_le_eq side hho hpx
      · exact hbefore x hx hpx

/-! ## The matching pass: element-wise structure -/

theorem same_key_refl (a : Order) : same_key a a := ⟨rfl, rfl, rfl, rfl, rfl⟩

theorem same_key_trans {a b c : Order} (h1 : same_key a b) (h2 : same_key b c) :
    same_key a c := by
  obtain ⟨h1a, h1b, h1c, h1d, h1e⟩ := h1
  obtain ⟨h2a, h2b, h2c, h2d, h2e⟩ := h2
  exact ⟨h2a.trans h1a, h2b.trans h1b, h2c.trans h1c, h2d.trans h1d, h2e.trans h1e⟩


theorem mlf_forall₂ (tix : Nat) (ts : ℚ) (fuel : Nat)
    (buys sells : List Order) :
    List.Forall₂ (fun a b => same_key a b ∧
        untouched_or (buy_ids (match_loop_fuel tix ts fuel buys sells).1) a b)
      buys (match_loop_fuel tix ts fuel buys sells).2.1 ∧
    List.Forall₂ (fun a b => same_key a b ∧
        untouched_or (sell_ids (match_loop_fuel tix ts fuel buys sells).1) a b)
      sells (match_loop_fuel tix ts fuel buys sells).2.2 := by
  induction fuel, buys, sells using match_loop_fuel.induct tix ts with
  | case1 fuel sells =>
    simp only [match_loop_fuel]
    exact ⟨List.Forall₂.nil,
      List.forall₂_same.mpr fun x hx => ⟨same_key_refl x, Or.inl rfl⟩⟩
  | case2 fuel b bs =>
    simp only [match_loop_fuel]
    exact ⟨List.forall₂_same.mpr fun x hx => ⟨same_key_refl x, Or.inl rfl⟩,
      List.Forall₂.nil⟩
  | case3 buys sells h1 h2 =>
    rcases buys with _ | ⟨b, bs⟩
    · simp only [match_loop_fuel]
      exact ⟨List.Forall₂.nil,
        List.forall₂_same.mpr fun x hx => ⟨same_key_refl x, Or.inl rfl⟩⟩
    · rcases sells with _ | ⟨s, ss⟩
      · simp only [match_loop_fuel]
        exact ⟨List.forall₂_same.mpr fun x hx => ⟨same_key_refl x, Or.inl rfl⟩,
          List.Forall₂.nil⟩
      · simp only [match_loop_fuel]
        exact ⟨List.forall₂_same.mpr fun x hx => ⟨same_key_refl x, Or.inl rfl⟩,
          List.forall₂_same.mpr fun x hx => ⟨same_key_refl x, Or.inl rfl⟩⟩
  | case4 fuel b bs s ss hb ih =>
    simp only [match_loop_fuel, hb, if_pos rfl] at ih ⊢
    exact ⟨List.Forall₂.cons ⟨same_key_refl b, Or.inl rfl⟩ ih.1, ih.2⟩
  | case5 fuel b bs s ss hb hs ih =>
    simp only [match_loop_fuel, if_neg hb, hs, if_pos rfl] at ih ⊢
    exact ⟨ih.1, List.Forall₂.cons ⟨same_key_refl s, Or.inl rfl⟩ ih.2⟩
  | case6 fuel b bs s ss hb hs hle q hbq hsq ih =>
    unfold_let q at ih
    simp only [match_loop_fuel, if_neg hb, if_neg hs, if_pos hle, if_pos hbq,
      if_pos hsq] at ih ⊢
    exact ⟨List.Forall₂.cons ⟨⟨rfl, rfl, rfl, rfl, rfl⟩, Or.inr (List.mem_cons_self _ _)⟩
        (ih.1.imp fun a b hab => ⟨hab.1, hab.2.imp_right fun hm => List.mem_cons_of_mem _ hm⟩),
      List.Forall₂.cons ⟨⟨rfl, rfl, rfl, rfl, rfl⟩, Or.inr (List.mem_cons_self _ _)⟩
        (ih.2.imp fun a b hab => ⟨hab.1, hab.2.imp_right fun hm => List.mem_cons_of_mem _ hm⟩)⟩
  | case7 fuel b bs s ss hb hs hle q s' hbq hsq ih =>
    unfold_let q s' at ih
    simp only [match_loop_fuel, if_neg hb, if_neg hs, if_pos hle, if_pos hbq,
      if_neg hsq] at ih ⊢
    refine ⟨List.Forall₂.cons ⟨⟨rfl, rfl, rfl, rfl, rfl⟩, Or.inr (List.mem_cons_self _ _)⟩
        (ih.1.imp fun a b hab => ⟨hab.1, hab.2.imp_right fun hm => List.mem_cons_of_mem _ hm⟩), ?_⟩
    rcases List.forall₂_cons_left_iff.mp ih.2 with ⟨y, ys, hy, hys, heq⟩
    rw [heq]
    refine List.Forall₂.cons ⟨same_key_trans ⟨rfl, rfl, rfl, rfl, rfl⟩ hy.1,
      Or.inr (List.mem_cons_self _ _)⟩
      (hys.imp fun a b hab => ⟨hab.1, hab.2.imp_right fun hm => List.mem_cons_of_mem _ hm⟩)
  | case8 fuel b bs s ss hb hs hle q b' hbq ih =>
    unfold_let q b' at ih
    simp only [match_loop_fuel, if_neg hb, if_neg hs, if_pos hle, if_neg hbq] at ih ⊢
    refine ⟨?_, List.Forall₂.cons ⟨⟨rfl, rfl, rfl, rfl, rfl⟩, Or.inr (List.mem_cons_self _ _)⟩
        (ih.2.imp fun a b hab => ⟨hab.1, hab.2.imp_right fun hm => List.mem_cons_of_mem _ hm⟩)⟩
    rcases List.forall₂_cons_left_iff.mp ih.1 with ⟨y, ys, hy, hys, heq⟩
    rw [heq]
    refine List.Forall₂.cons ⟨same_key_trans ⟨rfl, rfl, rfl, rfl, rfl⟩ hy.1,
      Or.inr (List.mem_cons_self _ _)⟩
      (hys.imp fun a b hab => ⟨hab.1, hab.2.imp_right fun hm => List.mem_cons_of_mem _ hm⟩)
  | case9 fuel b bs s ss hb hs hle =>
    simp only [match_loop_fuel, if_neg hb, if_neg hs, if_neg hle]
    exact ⟨List.forall₂_same.mpr fun x hx => ⟨same_key_refl x, Or.inl rfl⟩,
      List.forall₂_same.mpr fun x hx => ⟨same_key_refl x, Or.inl rfl⟩⟩

theorem mlf_qty (tix : Nat) (ts : ℚ) (fuel : Nat) (buys sells : List Order)
    (hb : ∀ o ∈ buys, 0 ≤ o.quantity ∧ (o.is_active = true → 0 < o.quantity))
    (hs : ∀ o ∈ sells, 0 ≤ o.quantity ∧ (o.is_active = true → 0 < o.quantity)) :
    (∀ o ∈ (match_loop_fuel tix ts fuel buys sells).2.1,
      0 ≤ o.quantity ∧ (o.is_active = true → 0 < o.quantity)) ∧
    (∀ o ∈ (match_loop_fuel tix ts fuel buys sells).2.2,
      0 ≤ o.quantity ∧ (o.is_active = true → 0 < o.quantity)) ∧
    (∀ t ∈ (match_loop_fuel tix ts fuel buys sells).1, 0 < t.quantity) := by
  induction fuel, buys, sells using match_loop_fuel.induct tix ts with
  | case1 fuel sells =>
    simp only [match_loop_fuel]
    exact ⟨by simp, hs, by simp⟩
  | case2 fuel b bs =>
    simp only [match_loop_fuel]
    exact ⟨hb, by simp, by simp⟩
  | case3 buys sells h1 h2 =>
    rcases buys with _ | ⟨b, bs⟩
    · simp only [match_loop_fuel]; exact ⟨by simp, hs, by simp⟩
    · rcases sells with _ | ⟨s, ss⟩
      · simp only [match_loop_fuel]; exact ⟨hb, by simp, by simp⟩
      · simp only [match_loop_fuel]; exact ⟨hb, hs, by simp⟩
  | case4 fuel b bs s ss hbi ih =>
    simp only [match_loop_fuel, hbi, if_pos rfl]
    have H := ih (fun o ho => hb o (List.mem_cons_of_mem b ho)) hs
    refine ⟨?_, H.2.1, H.2.2⟩
    intro o ho
    rcases List.mem_cons.mp ho with rfl | ho
    · exact hb o (List.mem_cons_self o bs)
    · exact H.1 o ho
  | case5 fuel b bs s ss hbi hsi ih =>
    simp only [match_loop_fuel, if_neg hbi, hsi, if_pos rfl]
    have H := ih hb (fun o ho => hs o (List.mem_cons_of_mem s ho))
    refine ⟨H.1, ?_, H.2.2⟩
    intro o ho
    rcases List.mem_cons.mp ho with rfl | ho
    · exact hs o (List.mem_cons_self o ss)
    · exact H.2.1 o ho
  | case6 fuel b bs s ss hbi hsi hle q hbq hsq ih =>
    simp only [match_loop_fuel, if_neg hbi, if_neg hsi, if_pos hle, if_pos hbq,
      if_pos hsq]
    have hba : b.is_active = true := by revert hbi; cases b.is_active <;> simp
    have hsa : s.is_active = true := by revert hsi; cases s.is_active <;> simp
    have hbpos := (hb b (List.mem_cons_self b bs)).2 hba
    have hspos := (hs s (List.mem_cons_self s ss)).2 hsa
    have hminb : min b.quantity s.quantity ≤ b.quantity := min_le_left _ _
    have hmins : min b.quantity s.quantity ≤ s.quantity := min_le_right _ _
    have H := ih (fun o ho => hb o (List.mem_cons_of_mem b ho))
      (fun o ho => hs o (List.mem_cons_of_mem s ho))
    refine ⟨?_, ?_, ?_⟩
    · intro o ho
      rcases List.mem_cons.mp ho with rfl | ho
      · refine ⟨by show (0:Int) ≤ b.quantity - min b.quantity s.quantity; linarith, ?_⟩
        intro hact
        replace hact : b.quantity - min b.quantity s.quantity ≠ 0 := by simpa using hact
        have h0 : 0 ≤ b.quantity - min b.quantity s.quantity := by linarith
        exact lt_of_le_of_ne h0 (Ne.symm hact)
      · exact H.1 o ho
    · intro o ho
      rcases List.mem_cons.mp ho with rfl | ho
      · refine ⟨by show (0:Int) ≤ s.quantity - min b.quantity s.quantity; linarith, ?_⟩
        intro hact
        replace hact : s.quantity - min b.quantity s.quantity ≠ 0 := by simpa using hact
        have h0 : 0 ≤ s.quantity - min b.quantity s.quantity := by linarith
        exact lt_of_le_of_ne h0 (Ne.symm hact)
      · exact H.2.1 o ho
    · intro t ht
      rcases List.mem_cons.mp ht with rfl | ht
      · exact lt_min hbpos hspos
      · exact H.2.2 t ht
  | case7 fuel b bs s ss hbi hsi hle q s' hbq hsq ih =>
    simp only [match_loop_fuel, if_neg hbi, if_neg hsi, if_pos hle, if_pos hbq,
      if_neg hsq]
    have hba : b.is_active = true := by revert hbi; cases b.is_active <;> simp
    have hsa : s.is_active = true := by revert hsi; cases s.is_active <;> simp
    have hbpos := (hb b (List.mem_cons_self b bs)).2 hba
    have hspos := (hs s (List.mem_cons_self s ss)).2 hsa
    have hminb : min b.quantity s.quantity ≤ b.quantity := min_le_left _ _
    have hmins : min b.quantity s.quantity ≤ s.quantity := min_le_right _ _
    have hs2 : ∀ o ∈ s' :: ss, 0 ≤ o.quantity ∧ (o.is_active = true → 0 < o.quantity) := by
      intro o ho
      rcases List.mem_cons.mp ho with rfl | ho
      · refine ⟨by show 0 ≤ s.quantity - min b.quantity s.quantity; linarith, ?_⟩
        intro hact
        replace hact : s.quantity - min b.quantity s.quantity ≠ 0 := by simpa using hact
        have h0 : 0 ≤ s.quantity - min b.quantity s.quantity := by linarith
        exact lt_of_le_of_ne h0 (Ne.symm hact)
      · exact hs o (List.mem_cons_of_mem s ho)
    have H := ih (fun o ho => hb o (List.mem_cons_of_mem b ho)) hs2
    refine ⟨?_, H.2.1, ?_⟩
    · intro o ho
      rcases List.mem_cons.mp ho with rfl | ho
      · refine ⟨by show (0:Int) ≤ b.quantity - min b.quantity s.quantity; linarith, ?_⟩
        intro hact
        replace hact : b.quantity - min b.quantity s.quantity ≠ 0 := by simpa using hact
        have h0 : 0 ≤ b.quantity - min b.quantity s.quantity := by linarith
        exact lt_of_le_of_ne h0 (Ne.symm hact)
      · exact H.1 o ho
    · intro t ht
      rcases List.mem_cons.mp ht with rfl | ht
      · exact lt_min hbpos hspos
      · exact H.2.2 t ht
  | case8 fuel b bs s ss hbi hsi hle q b' hbq ih =>
    simp only [match_loop_fuel, if_neg hbi, if_neg hsi, if_pos hle, if_neg hbq]
    have hba : b.is_active = true := by revert hbi; cases b.is_active <;> simp
    have hsa : s.is_active = true := by revert hsi; cases s.is_active <;> simp
    have hbpos := (hb b (List.mem_cons_self b bs)).2 hba
    have hspos := (hs s (List.mem_cons_self s ss)).2 hsa
    have hminb : min b.quantity s.quantity ≤ b.quantity := min_le_left _ _
    have hmins : min b.quantity s.quantity ≤ s.quantity := min_le_right _ _
    have hb2 : ∀ o ∈ b' :: bs, 0 ≤ o.quantity ∧ (o.is_active = true → 0 < o.quantity) := by
      intro o ho
      rcases List.mem_cons.mp ho with rfl | ho
      · refine ⟨by show 0 ≤ b.quantity - min b.quantity s.quantity; linarith, ?_⟩
        intro hact
        replace hact : b.quantity - min b.quantity s.quantity ≠ 0 := by simpa using hact
        have h0 : 0 ≤ b.quantity - min b.quantity s.quantity := by linarith
        exact lt_of_le_of_ne h0 (Ne.symm hact)
      · exact hb o (List.mem_cons_of_mem b ho)
    have H := ih hb2 (fun o ho => hs o (List.mem_cons_of_mem s ho))
    refine ⟨H.1, ?_, ?_⟩
    · intro o ho
      rcases List.mem_cons.mp ho with rfl | ho
      · refine ⟨by show (0:Int) ≤ s.quantity - min b.quantity s.quantity; linarith, ?_⟩
        intro hact
        replace hact : s.quantity - min b.quantity s.quantity ≠ 0 := by simpa using hact
        have h0 : 0 ≤ s.quantity - min b.quantity s.quantity := by linarith
        exact lt_of_le_of_ne h0 (Ne.symm hact)
      · exact H.2.1 o ho
    · intro t ht
      rcases List.mem_cons.mp ht with rfl | ht
      · exact lt_min hbpos hspos
      · exact H.2.2 t ht
  | case9 fuel b bs s ss hbi hsi hle =>
    simp only [match_loop_fuel, if_neg hbi, if_neg hsi, if_neg hle]
    exact ⟨hb, hs, by simp⟩

theorem mlf_accounting (tix : Nat) (ts : ℚ) (fuel : Nat) (buys sells : List Order)
    (oid : Nat) :
    list_qty oid (match_loop_fuel tix ts fuel buys sells).2.1 +
        fill_sum OrderType.BUY oid (match_loop_fuel tix ts fuel buys sells).1 =
      list_qty oid buys ∧
    list_qty oid (match_loop_fuel tix ts fuel buys sells).2.2 +
        fill_sum OrderType.SELL oid (match_loop_fuel tix ts fuel buys sells).1 =
      list_qty oid sells := by
  induction fuel, buys, sells using match_loop_fuel.induct tix ts with
  | case1 fuel sells =>
    simp only [match_loop_fuel, fill_sum_nil, list_qty_nil]
    omega
  | case2 fuel b bs =>
    simp only [match_loop_fuel, fill_sum_nil, list_qty_nil]
    omega
  | case3 buys sells h1 h2 =>
    rcases buys with _ | ⟨b, bs⟩
    · simp only [match_loop_fuel, fill_sum_nil, list_qty_nil]; omega
    · rcases sells with _ | ⟨s, ss⟩
      · simp only [match_loop_fuel, fill_sum_nil, list_qty_nil]; omega
      · simp only [match_loop_fuel, fill_sum_nil]; omega
  | case4 fuel b bs s ss hbi ih =>
    simp only [match_loop_fuel, if_pos hbi, list_qty_cons]
    have h1 := ih.1
    have h2 := ih.2
    simp only [list_qty_cons] at h1 h2
    exact ⟨by linarith, by linarith⟩
  | case5 fuel b bs s ss hbi hsi ih =>
    simp only [match_loop_fuel, if_neg hbi, if_pos hsi, list_qty_cons]
    have h1 := ih.1
    have h2 := ih.2
    simp only [list_qty_cons] at h1 h2
    exact ⟨by linarith, by linarith⟩
  | case6 fuel b bs s ss hbi hsi hle q hbq hsq ih =>
    simp only [match_loop_fuel, if_neg hbi, if_neg hsi, if_pos hle, if_pos hbq,
      if_pos hsq, list_qty_cons, fill_sum_cons, trade_party]
    have h1 := ih.1
    have h2 := ih.2
    constructor
    · by_cases hc : b.id = oid
      · simp only [if_pos hc]; linarith
      · simp only [if_neg hc]; linarith
    · by_cases hc : s.id = oid
      · simp only [if_pos hc]; linarith
      · simp only [if_neg hc]; linarith
  | case7 fuel b bs s ss hbi hsi hle q s' hbq hsq ih =>
    unfold_let q s' at ih
    simp only [list_qty_cons] at ih
    simp only [match_loop_fuel, if_neg hbi, if_neg hsi, if_pos hle, if_pos hbq,
      if_neg hsq, list_qty_cons, fill_sum_cons, trade_party]
    have h1 := ih.1
    have h2 := ih.2
    constructor
    · by_cases hc : b.id = oid
      · simp only [if_pos hc] at h1 ⊢; linarith
      · simp only [if_neg hc] at h1 ⊢; linarith
    · by_cases hc : s.id = oid
      · simp only [if_pos hc] at h2 ⊢; linarith
      · simp only [if_neg hc] at h2 ⊢; linarith
  | case8 fuel b bs s ss hbi hsi hle q b' hbq ih =>
    unfold_let q b' at ih
    simp only [list_qty_cons] at ih
    simp only [match_loop_fuel, if_neg hbi, if_neg hsi, if_pos hle, if_neg hbq,
      list_qty_cons, fill_sum_cons, trade_party]
    have h1 := ih.1
    have h2 := ih.2
    constructor
    · by_cases hc : b.id = oid
      · simp only [if_pos hc] at h1 ⊢; linarith
      · simp only [if_neg hc] at h1 ⊢; linarith
    · by_cases hc : s.id = oid
      · simp only [if_pos hc] at h2 ⊢; linarith
      · simp only [if_neg hc] at h2 ⊢; linarith
  | case9 fuel b bs s ss hbi hsi hle =>
    simp only [match_loop_fuel, if_neg hbi, if_neg hsi, if_neg hle, fill_sum_nil]
    omega

theorem mlf_trades_wf (tix : Nat) (ts : ℚ) (fuel : Nat) (buys sells : List Order) :
    ∀ t ∈ (match_loop_fuel tix ts fuel buys sells).1,
      (∃ b ∈ buys, b.id = t.buy_order_id ∧ b.is_active = true ∧ t.price ≤ b.price) ∧
      (∃ s ∈ sells, s.id = t.sell_order_id ∧ s.is_active = true ∧ t.price = s.price) ∧
      t.ticker_index = tix := by
  induction fuel, buys, sells using match_loop_fuel.induct tix ts with
  | case1 fuel sells => simp [match_loop_fuel]
  | case2 fuel b bs => simp [match_loop_fuel]
  | case3 buys sells h1 h2 =>
    rcases buys with _ | ⟨b, bs⟩
    · simp [match_loop_fuel]
    · rcases sells with _ | ⟨s, ss⟩
      · simp [match_loop_fuel]
      · simp [match_loop_fuel]
  | case4 fuel b bs s ss hbi ih =>
    simp only [match_loop_fuel, if_pos hbi]
    intro t ht
    obtain ⟨⟨b0, hb0, hb0r⟩, ⟨s0, hs0, hs0r⟩, htix⟩ := ih t ht
    exact ⟨⟨b0, List.mem_cons_of_mem b hb0, hb0r⟩, ⟨s0, hs0, hs0r⟩, htix⟩
  | case5 fuel b bs s ss hbi hsi ih =>
    simp only [match_loop_fuel, if_neg hbi, if_pos hsi]
    intro t ht
    obtain ⟨⟨b0, hb0, hb0r⟩, ⟨s0, hs0, hs0r⟩, htix⟩ := ih t ht
    exact ⟨⟨b0, hb0, hb0r⟩, ⟨s0, List.mem_cons_of_mem s hs0, hs0r⟩, htix⟩
  | case6 fuel b bs s ss hbi hsi hle q hbq hsq ih =>
    simp only [match_loop_fuel, if_neg hbi, if_neg hsi, if_pos hle, if_pos hbq,
      if_pos hsq]
    have hba : b.is_active = true := by revert hbi; cases b.is_active <;> simp
    have hsa : s.is_active = true := by revert hsi; cases s.is_active <;> simp
    intro t ht
    rcases List.mem_cons.mp ht with rfl | ht
    · exact ⟨⟨b, List.mem_cons_self b bs, rfl, hba, hle⟩,
        ⟨s, List.mem_cons_self s ss, rfl, hsa, rfl⟩, rfl⟩
    · obtain ⟨⟨b0, hb0, hb0r⟩, ⟨s0, hs0, hs0r⟩, htix⟩ := ih t ht
      exact ⟨⟨b0, List.mem_cons_of_mem b hb0, hb0r⟩,
        ⟨s0, List.mem_cons_of_mem s hs0, hs0r⟩, htix⟩
  | case7 fuel b bs s ss hbi hsi hle q s' hbq hsq ih =>
    simp only [match_loop_fuel, if_neg hbi, if_neg hsi, if_pos hle, if_pos hbq,
      if_neg hsq]
    have hba : b.is_active = true := by revert hbi; cases b.is_active <;> simp
    have hsa : s.is_active = true := by revert hsi; cases s.is_active <;> simp
    intro t ht
    rcases List.mem_cons.mp ht with rfl | ht
    · exact ⟨⟨b, List.mem_cons_self b bs, rfl, hba, hle⟩,
        ⟨s, List.mem_cons_self s ss, rfl, hsa, rfl⟩, rfl⟩
    · obtain ⟨⟨b0, hb0, hb0r⟩, ⟨s0, hs0, hs0r⟩, htix⟩ := ih t ht
      refine ⟨⟨b0, List.mem_cons_of_mem b hb0, hb0r⟩, ?_, htix⟩
      rcases List.mem_cons.mp hs0 with rfl | hs0
      · exact ⟨s, List.mem_cons_self s ss, hs0r.1, hsa, hs0r.2.2⟩
      · exact ⟨s0, List.mem_cons_of_mem s hs0, hs0r⟩
  | case8 fuel b bs s ss hbi hsi hle q b' hbq ih =>
    simp only [match_loop_fuel, if_neg hbi, if_neg hsi, if_pos hle, if_neg hbq]
    have hba : b.is_active = true := by revert hbi; cases b.is_active <;> simp
    have hsa : s.is_active = true := by revert hsi; cases s.is_active <;> simp
    intro t ht
    rcases List.mem_cons.mp ht with rfl | ht
    · exact ⟨⟨b, List.mem_cons_self b bs, rfl, hba, hle⟩,
        ⟨s, List.mem_cons_self s ss, rfl, hsa, rfl⟩, rfl⟩
    · obtain ⟨⟨b0, hb0, hb0r⟩, ⟨s0, hs0, hs0r⟩, htix⟩ := ih t ht
      refine ⟨?_, ⟨s0, List.mem_cons_of_mem s hs0, hs0r⟩, htix⟩
      rcases List.mem_cons.mp hb0 with rfl | hb0
      · exact ⟨b, List.mem_cons_self b bs, hb0r.1, hba, hb0r.2.2⟩
      · exact ⟨b0, List.mem_cons_of_mem b hb0, hb0r⟩
  | case9 fuel b bs s ss hbi hsi hle =>
    simp [match_loop_fuel, if_neg hbi, if_neg hsi, if_neg hle]

theorem buy_ids_cons (t : Trade) (tr : List Trade) :
    buy_ids (t :: tr) = t.buy_order_id :: buy_ids tr := rfl

theorem sell_ids_cons (t : Trade) (tr : List Trade) :
    sell_ids (t :: tr) = t.sell_order_id :: sell_ids tr := rfl

theorem price_le_head_buy {b b0 : Order} {bs : List Order}
    (hbs : List.Pairwise (book_le OrderType.BUY) (b :: bs))
    (hb0 : b0 ∈ b :: bs) : b0.price ≤ b.price := by
  rcases List.mem_cons.mp hb0 with rfl | hb0
  · exact le_refl _
  · have := (List.pairwise_cons.mp hbs).1 b0 hb0
    rcases this with h | ⟨h, -⟩
    · exact le_of_lt h
    · exact le_of_eq h.symm

theorem head_price_le_sell {s s0 : Order} {ss : List Order}
    (hss : List.Pairwise (book_le OrderType.SELL) (s :: ss))
    (hs0 : s0 ∈ s :: ss) : s.price ≤ s0.price := by
  rcases List.mem_cons.mp hs0 with rfl | hs0
  · exact le_refl _
  · have := (List.pairwise_cons.mp hss).1 s0 hs0
    rcases this with h | ⟨h, -⟩
    · exact le_of_lt h
    · exact le_of_eq h

theorem mlf_noncross (tix : Nat) (ts : ℚ) (fuel : Nat) (buys sells : List Order)
    (hlen : buys.length + sells.length ≤ fuel)
    (hbs : List.Pairwise (book_le OrderType.BUY) buys)
    (hss : List.Pairwise (book_le OrderType.SELL) sells) :
    ∀ b0 ∈ (match_loop_fuel tix ts fuel buys sells).2.1, b0.is_active = true →
      b0.id ∉ buy_ids (match_loop_fuel tix ts fuel buys sells).1 →
    ∀ s0 ∈ (match_loop_fuel tix ts fuel buys sells).2.2, s0.is_active = true →
      s0.id ∉ sell_ids (match_loop_fuel tix ts fuel buys sells).1 →
        b0.price < s0.price := by
  induction fuel, buys, sells using match_loop_fuel.induct tix ts with
  | case1 fuel sells =>
    simp only [match_loop_fuel]
    intro b0 hb0
    exact absurd hb0 (List.not_mem_nil b0)
  | case2 fuel b bs =>
    simp only [match_loop_fuel]
    intro b0 hb0 hact hnin s0 hs0
    exact absurd hs0 (List.not_mem_nil s0)
  | case3 buys sells h1 h2 =>
    rcases buys with _ | ⟨b, bs⟩
    · exact absurd rfl h1
    · rcases sells with _ | ⟨s, ss⟩
      · exact absurd rfl (h2 b bs rfl)
      · simp only [List.length_cons] at hlen
        omega
  | case4 fuel b bs s ss hbi ih =>
    simp only [match_loop_fuel, if_pos hbi]
    intro b0 hb0 hact hnin s0 hs0 hsact hsnin
    rcases List.mem_cons.mp hb0 with rfl | hb0
    · rw [hbi] at hact
      cases hact
    · simp only [List.length_cons] at hlen
      exact ih (by simp only [List.length_cons]; omega) (List.pairwise_cons.mp hbs).2 hss b0 hb0 hact hnin s0 hs0 hsact hsnin
  | case5 fuel b bs s ss hbi hsi ih =>
    simp only [match_loop_fuel, if_neg hbi, if_pos hsi]
    intro b0 hb0 hact hnin s0 hs0 hsact hsnin
    rcases List.mem_cons.mp hs0 with rfl | hs0
    · rw [hsi] at hsact
      cases hsact
    · simp only [List.length_cons] at hlen
      exact ih (by simp only [List.length_cons]; omega) hbs (List.pairwise_cons.mp hss).2 b0 hb0 hact hnin s0 hs0 hsact hsnin
  | case6 fuel b bs s ss hbi hsi hle q hbq hsq ih =>
    unfold_let q at ih hbq hsq
    simp only [match_loop_fuel, if_neg hbi, if_neg hsi, if_pos hle, if_pos hbq,
      if_pos hsq]
    intro b0 hb0 hact hnin s0 hs0 hsact hsnin
    rcases List.mem_cons.mp hb0 with rfl | hb0
    · replace hact : b.quantity - min b.quantity s.quantity ≠ 0 := by simpa using hact
      exact absurd hbq hact
    rcases List.mem_cons.mp hs0 with rfl | hs0
    · replace hsact : s.quantity - min b.quantity s.quantity ≠ 0 := by simpa using hsact
      exact absurd hsq hsact
    simp only [buy_ids_cons, List.mem_cons, not_or] at hnin
    simp only [sell_ids_cons, List.mem_cons, not_or] at hsnin
    simp only [List.length_cons] at hlen
    exact ih (by omega) (List.pairwise_cons.mp hbs).2 (List.pairwise_cons.mp hss).2
      b0 hb0 hact hnin.2 s0 hs0 hsact hsnin.2
  | case7 fuel b bs s ss hbi hsi hle q s' hbq hsq ih =>
    unfold_let q s' at ih hbq hsq
    simp only [match_loop_fuel, if_neg hbi, if_neg hsi, if_pos hle, if_pos hbq,
      if_neg hsq]
    intro b0 hb0 hact hnin s0 hs0 hsact hsnin
    rcases List.mem_cons.mp hb0 with rfl | hb0
    · replace hact : b.quantity - min b.quantity s.quantity ≠ 0 := by simpa using hact
      exact absurd hbq hact
    simp only [buy_ids_cons, List.mem_cons, not_or] at hnin
    simp only [sell_ids_cons, List.mem_cons, not_or] at hsnin
    simp only [List.length_cons] at hlen
    have hss2 : List.Pairwise (book_le OrderType.SELL) (s' :: ss) := by
      rw [List.pairwise_cons] at hss ⊢
      exact ⟨fun x hx => hss.1 x hx, hss.2⟩
    unfold_let s' at hss2
    exact ih (by simp only [List.length_cons]; omega) (List.pairwise_cons.mp hbs).2 hss2
      b0 hb0 hact hnin.2 s0 hs0 hsact hsnin.2
  | case8 fuel b bs s ss hbi hsi hle q b' hbq ih =>
    unfold_let q b' at ih hbq
    simp only [match_loop_fuel, if_neg hbi, if_neg hsi, if_pos hle, if_neg hbq]
    intro b0 hb0 hact hnin s0 hs0 hsact hsnin
    rcases List.mem_cons.mp hs0 with rfl | hs0
    · have hm : min b.quantity s.quantity = b.quantity ∨
          min b.quantity s.quantity = s.quantity := min_choice _ _
      rcases hm with hm | hm
      · exact absurd (by rw [hm]; ring) hbq
      · replace hsact : s.quantity - min b.quantity s.quantity ≠ 0 := by simpa using hsact
        exact absurd (by rw [hm]; ring) hsact
    simp only [buy_ids_cons, List.mem_cons, not_or] at hnin
    simp only [sell_ids_cons, List.mem_cons, not_or] at hsnin
    simp only [List.length_cons] at hlen
    have hbs2 : List.Pairwise (book_le OrderType.BUY) (b' :: bs) := by
      rw [List.pairwise_cons] at hbs ⊢
      exact ⟨fun x hx => hbs.1 x hx, hbs.2⟩
    unfold_let b' at hbs2
    exact ih (by simp only [List.length_cons]; omega) hbs2 (List.pairwise_cons.mp hss).2
      b0 hb0 hact hnin.2 s0 hs0 hsact hsnin.2
  | case9 fuel b bs s ss hbi hsi hle =>
    simp only [match_loop_fuel, if_neg hbi, if_neg hsi, if_neg hle]
    intro b0 hb0 hact hnin s0 hs0 hsact hsnin
    have h1 : b0.price ≤ b.price := price_le_head_buy hbs hb0
    have h2 : s.price ≤ s0.price := head_price_le_sell hss hs0
    have h3 : b.price < s.price := not_le.mp hle
    linarith

/-! ## The post-commit marking pass -/

theorem mark_rel_same_key {a b : Order} (h : mark_rel a b) :
    same_key a b ∧ b.quantity = a.quantity := by
  rcases h with rfl | rfl
  · exact ⟨same_key_refl _, rfl⟩
  · exact ⟨⟨rfl, rfl, rfl, rfl, rfl⟩, rfl⟩

theorem mark_forall₂ (l : List Order) (oid : Nat) :
    List.Forall₂ mark_rel l (mark_order_inactive l oid) := by
  induction l with
  | nil => exact List.Forall₂.nil
  | cons o rest ih =>
    rw [mark_order_inactive]
    split
    · exact List.Forall₂.cons (Or.inr rfl) (List.forall₂_same.mpr fun x hx => Or.inl rfl)
    · exact List.Forall₂.cons (Or.inl rfl) ih

theorem mark_map_id (l : List Order) (oid : Nat) :
    (mark_order_inactive l oid).map Order.id = l.map Order.id :=
  map_id_of_forall₂_same_key ((mark_forall₂ l oid).imp fun a b h => (mark_rel_same_key h).1)

theorem mark_list_qty (l : List Order) (oid i : Nat) :
    list_qty i (mark_order_inactive l oid) = list_qty i l := by
  induction l with
  | nil => rfl
  | cons o rest ih =>
    rw [mark_order_inactive]
    split
    case isTrue h =>
      rw [list_qty_cons, list_qty_cons]
    case isFalse h =>
      rw [list_qty_cons, list_qty_cons, ih]

theorem mark_active {l : List Order} {oid : Nat}
    (hnodup : (l.map Order.id).Nodup) :
    ∀ o ∈ mark_order_inactive l oid, o.is_active = true → o ∈ l ∧ o.id ≠ oid := by
  induction l with
  | nil => intro o ho; cases ho
  | cons o0 rest ih =>
    rw [List.map_cons, List.nodup_cons] at hnodup
    rw [mark_order_inactive]
    split
    case isTrue h =>
      intro o ho hact
      rcases List.mem_cons.mp ho with rfl | ho
      · simp at hact
      · refine ⟨List.mem_cons_of_mem o0 ho, ?_⟩
        intro hEq
        apply hnodup.1
        have hmm : o.id ∈ rest.map Order.id := List.mem_map_of_mem Order.id ho
        rwa [hEq, ← h.1] at hmm
    case isFalse h =>
      intro o ho hact
      rcases List.mem_cons.mp ho with rfl | ho
      · refine ⟨List.mem_cons_self o rest, ?_⟩
        intro hEq
        exact h ⟨hEq, hact⟩
      · obtain ⟨hmem, hne⟩ := ih hnodup.2 o ho hact
        exact ⟨List.mem_cons_of_mem o0 hmem, hne⟩

theorem mark_trades_cons (t : Trade) (tr : List Trade) (buys sells : List Order) :
    mark_trades (t :: tr) buys sells =
      mark_trades tr (mark_order_inactive buys t.buy_order_id)
        (mark_order_inactive sells t.sell_order_id) := rfl

theorem mark_trades_nil (buys sells : List Order) :
    mark_trades [] buys sells = (buys, sells) := rfl

theorem forall₂_skq_trans {a b c : List Order}
    (h1 : List.Forall₂ (fun x y => same_key x y ∧ y.quantity = x.quantity) a b)
    (h2 : List.Forall₂ (fun x y => same_key x y ∧ y.quantity = x.quantity) b c) :
    List.Forall₂ (fun x y => same_key x y ∧ y.quantity = x.quantity) a c := by
  induction h1 generalizing c with
  | nil => cases h2; exact List.Forall₂.nil
  | @cons x y l l' hxy htail ih =>
    rcases List.forall₂_cons_left_iff.mp h2 with ⟨z, zs, hyz, hzs, rfl⟩
    exact List.Forall₂.cons
      ⟨same_key_trans hxy.1 hyz.1, hyz.2.trans hxy.2⟩ (ih hzs)

theorem mark_trades_rel (tr : List Trade) : ∀ (buys sells : List Order),
    List.Forall₂ (fun x y => same_key x y ∧ y.quantity = x.quantity) buys
      (mark_trades tr buys sells).1 ∧
    List.Forall₂ (fun x y => same_key x y ∧ y.quantity = x.quantity) sells
      (mark_trades tr buys sells).2 := by
  induction tr with
  | nil =>
    intro buys sells
    rw [mark_trades_nil]
    exact ⟨List.forall₂_same.mpr fun x hx => ⟨same_key_refl x, rfl⟩,
      List.forall₂_same.mpr fun x hx => ⟨same_key_refl x, rfl⟩⟩
  | cons t tr ih =>
    intro buys sells
    rw [mark_trades_cons]
    have h1 := (mark_forall₂ buys t.buy_order_id).imp
      fun a b h => mark_rel_same_key h
    have h2 := (mark_forall₂ sells t.sell_order_id).imp
      fun a b h => mark_rel_same_key h
    have H := ih (mark_order_inactive buys t.buy_order_id)
      (mark_order_inactive sells t.sell_order_id)
    exact ⟨forall₂_skq_trans h1 H.1, forall₂_skq_trans h2 H.2⟩

theorem mark_trades_map_id (tr : List Trade) (buys sells : List Order) :
    (mark_trades tr buys sells).1.map Order.id = buys.map Order.id ∧
    (mark_trades tr buys sells).2.map Order.id = sells.map Order.id :=
  ⟨map_id_of_forall₂_same_key ((mark_trades_rel tr buys sells).1.imp fun a b h => h.1),
   map_id_of_forall₂_same_key ((mark_trades_rel tr buys sells).2.imp fun a b h => h.1)⟩

theorem mark_trades_list_qty (tr : List Trade) : ∀ (buys sells : List Order) (i : Nat),
    list_qty i (mark_trades tr buys sells).1 = list_qty i buys ∧
    list_qty i (mark_trades tr buys sells).2 = list_qty i sells := by
  induction tr with
  | nil => intro buys sells i; rw [mark_trades_nil]; exact ⟨rfl, rfl⟩
  | cons t tr ih =>
    intro buys sells i
    rw [mark_trades_cons]
    have H := ih (mark_order_inactive buys t.buy_order_id)
      (mark_order_inactive sells t.sell_order_id) i
    exact ⟨H.1.trans (mark_list_qty _ _ _), H.2.trans (mark_list_qty _ _ _)⟩

theorem mark_trades_active (tr : List Trade) : ∀ (buys sells : List Order),
    (buys.map Order.id).Nodup → (sells.map Order.id).Nodup →
    (∀ o ∈ (mark_trades tr buys sells).1, o.is_active = true →
      o ∈ buys ∧ o.id ∉ buy_ids tr) ∧
    (∀ o ∈ (mark_trades tr buys sells).2, o.is_active = true →
      o ∈ sells ∧ o.id ∉ sell_ids tr) := by
  induction tr with
  | nil =>
    intro buys sells hb hs
    rw [mark_trades_nil]
    exact ⟨fun o ho ha => ⟨ho, by simp [buy_ids]⟩,
      fun o ho ha => ⟨ho, by simp [sell_ids]⟩⟩
  | cons t tr ih =>
    intro buys sells hb hs
    rw [mark_trades_cons]
    have hb2 : ((mark_order_inactive buys t.buy_order_id).map Order.id).Nodup := by
      rw [mark_map_id]; exact hb
    have hs2 : ((mark_order_inactive sells t.sell_order_id).map Order.id).Nodup := by
      rw [mark_map_id]; exact hs
    have H := ih (mark_order_inactive buys t.buy_order_id)
      (mark_order_inactive sells t.sell_order_id) hb2 hs2
    constructor
    · intro o ho hact
      obtain ⟨hmem, hnin⟩ := H.1 o ho hact
      obtain ⟨hmem2, hne⟩ := mark_active hb o hmem hact
      refine ⟨hmem2, ?_⟩
      rw [buy_ids_cons]
      simp only [List.mem_cons, not_or]
      exact ⟨hne, hnin⟩
    · intro o ho hact
      obtain ⟨hmem, hnin⟩ := H.2 o ho hact
      obtain ⟨hmem2, hne⟩ := mark_active hs o hmem hact
      refine ⟨hmem2, ?_⟩
      rw [sell_ids_cons]
      simp only [List.mem_cons, not_or]
      exact ⟨hne, hnin⟩

/-! ## One successful commit, at the level of a book's two lists -/

theorem commit_lists_spec (tix : Nat) (ts : ℚ) (B S : List Order)
    (r : List Trade × List Order × List Order) (p : List Order × List Order)
    (buyF sellF : List Order)
    (hsortB : List.Pairwise (book_le OrderType.BUY) B)
    (hsortS : List.Pairwise (book_le OrderType.SELL) S)
    (hnodup : ((B ++ S).map Order.id).Nodup)
    (hq : ∀ o ∈ B ++ S, 0 ≤ o.quantity ∧ (o.is_active = true → 0 < o.quantity))
    (hr : r = match_loop tix ts B S)
    (hp : p = mark_trades r.1 r.2.1 r.2.2)
    (hbF : buyF = cleanup_list p.1)
    (hsF : sellF = cleanup_list p.2) :
    (∀ o ∈ buyF, o ∈ B ∧ o.is_active = true) ∧
    (∀ o ∈ sellF, o ∈ S ∧ o.is_active = true) ∧
    (∀ b ∈ buyF, ∀ s ∈ sellF, b.price < s.price) ∧
    List.Pairwise (book_le OrderType.BUY) buyF ∧
    List.Pairwise (book_le OrderType.SELL) sellF ∧
    (buyF.map Order.id).Sublist (B.map Order.id) ∧
    (sellF.map Order.id).Sublist (S.map Order.id) ∧
    (∀ oid, list_qty oid buyF + fill_sum OrderType.BUY oid r.1 ≤ list_qty oid B) ∧
    (∀ oid, list_qty oid sellF + fill_sum OrderType.SELL oid r.1 ≤ list_qty oid S) ∧
    (∀ t ∈ r.1,
      (∃ b ∈ B, b.id = t.buy_order_id ∧ b.is_active = true ∧ t.price ≤ b.price) ∧
      (∃ s ∈ S, s.id = t.sell_order_id ∧ s.is_active = true ∧ t.price = s.price) ∧
      t.ticker_index = tix ∧ 0 < t.quantity) := by
  rw [match_loop] at hr
  subst hr hp hbF hsF
  rw [List.map_append] at hnodup
  have nodupB : (B.map Order.id).Nodup := hnodup.of_append_left
  have nodupS : (S.map Order.id).Nodup := hnodup.of_append_right
  have hqB : ∀ o ∈ B, 0 ≤ o.quantity ∧ (o.is_active = true → 0 < o.quantity) :=
    fun o ho => hq o (List.mem_append_left S ho)
  have hqS : ∀ o ∈ S, 0 ≤ o.quantity ∧ (o.is_active = true → 0 < o.quantity) :=
    fun o ho => hq o (List.mem_append_right B ho)
  have shape := mlf_forall₂ tix ts (B.length + S.length) B S
  have qty := mlf_qty tix ts (B.length + S.length) B S hqB hqS
  have ncr := mlf_noncross tix ts (B.length + S.length) B S (le_refl _) hsortB hsortS
  have twf := mlf_trades_wf tix ts (B.length + S.length) B S
  have hmapB : (match_loop_fuel tix ts (B.length + S.length) B S).2.1.map Order.id =
      B.map Order.id :=
    map_id_of_forall₂_same_key (shape.1.imp fun a b h => h.1)
  have hmapS : (match_loop_fuel tix ts (B.length + S.length) B S).2.2.map Order.id =
      S.map Order.id :=
    map_id_of_forall₂_same_key (shape.2.imp fun a b h => h.1)
  have nodupRb : ((match_loop_fuel tix ts (B.length + S.length) B S).2.1.map Order.id).Nodup := by
    rw [hmapB]; exact nodupB
  have nodupRs : ((match_loop_fuel tix ts (B.length + S.length) B S).2.2.map Order.id).Nodup := by
    rw [hmapS]; exact nodupS
  have markact := mark_trades_active (match_loop_fuel tix ts (B.length + S.length) B S).1
    (match_loop_fuel tix ts (B.length + S.length) B S).2.1
    (match_loop_fuel tix ts (B.length + S.length) B S).2.2 nodupRb nodupRs
  have markrel := mark_trades_rel (match_loop_fuel tix ts (B.length + S.length) B S).1
    (match_loop_fuel tix ts (B.length + S.length) B S).2.1
    (match_loop_fuel tix ts (B.length + S.length) B S).2.2
  have survB : ∀ o ∈ cleanup_list (mark_trades
      (match_loop_fuel tix ts (B.length + S.length) B S).1
      (match_loop_fuel tix ts (B.length + S.length) B S).2.1
      (match_loop_fuel tix ts (B.length + S.length) B S).2.2).1,
      (o ∈ (match_loop_fuel tix ts (B.length + S.length) B S).2.1 ∧
        o.is_active = true ∧
        o.id ∉ buy_ids (match_loop_fuel tix ts (B.length + S.length) B S).1) ∧ o ∈ B := by
    intro o ho
    rw [cleanup_list_eq_filter, List.mem_filter] at ho
    obtain ⟨hmem, hnin⟩ := markact.1 o ho.1 ho.2
    refine ⟨⟨hmem, ho.2, hnin⟩, ?_⟩
    obtain ⟨a, haB, hrel⟩ := forall₂_mem_right shape.1 o hmem
    rcases hrel.2 with rfl | hid
    · exact haB
    · rw [← hrel.1.1] at hid
      exact absurd hid hnin
  have survS : ∀ o ∈ cleanup_list (mark_trades
      (match_loop_fuel tix ts (B.length + S.length) B S).1
      (match_loop_fuel tix ts (B.length + S.length) B S).2.1
      (match_loop_fuel tix ts (B.length + S.length) B S).2.2).2,
      (o ∈ (match_loop_fuel tix ts (B.length + S.length) B S).2.2 ∧
        o.is_active = true ∧
        o.id ∉ sell_ids (match_loop_fuel tix ts (B.length + S.length) B S).1) ∧ o ∈ S := by
    intro o ho
    rw [cleanup_list_eq_filter, List.mem_filter] at ho
    obtain ⟨hmem, hnin⟩ := markact.2 o ho.1 ho.2
    refine ⟨⟨hmem, ho.2, hnin⟩, ?_⟩
    obtain ⟨a, haS, hrel⟩ := forall₂_mem_right shape.2 o hmem
    rcases hrel.2 with rfl | hid
    · exact haS
    · rw [← hrel.1.1] at hid
      exact absurd hid hnin
  refine ⟨?_, ?_, ?_, ?_, ?_, ?_, ?_, ?_, ?_, ?_⟩
  · exact fun o ho => ⟨(survB o ho).2, (survB o ho).1.2.1⟩
  · exact fun o ho => ⟨(survS o ho).2, (survS o ho).1.2.1⟩
  · intro b hb s hs
    obtain ⟨⟨hbm, hba, hbx⟩, -⟩ := survB b hb
    obtain ⟨⟨hsm, hsa, hsx⟩, -⟩ := survS s hs
    exact ncr b hbm hba hbx s hsm hsa hsx
  · have p1 : List.Pairwise (book_le OrderType.BUY)
        (match_loop_fuel tix ts (B.length + S.length) B S).2.1 :=
      pairwise_of_forall₂_same_key (shape.1.imp fun a b h => h.1) hsortB
    have p2 : List.Pairwise (book_le OrderType.BUY) (mark_trades
        (match_loop_fuel tix ts (B.length + S.length) B S).1
        (match_loop_fuel tix ts (B.length + S.length) B S).2.1
        (match_loop_fuel tix ts (B.length + S.length) B S).2.2).1 :=
      pairwise_of_forall₂_same_key (markrel.1.imp fun a b h => h.1) p1
    rw [cleanup_list_eq_filter]
    exact p2.sublist (List.filter_sublist _)
  · have p1 : List.Pairwise (book_le OrderType.SELL)
        (match_loop_fuel tix ts (B.length + S.length) B S).2.2 :=
      pairwise_of_forall₂_same_key (shape.2.imp fun a b h => h.1) hsortS
    have p2 : List.Pairwise (book_le OrderType.SELL) (mark_trades
        (match_loop_fuel tix ts (B.length + S.length) B S).1
        (match_loop_fuel tix ts (B.length + S.length) B S).2.1
        (match_loop_fuel tix ts (B.length + S.length) B S).2.2).2 :=
      pairwise_of_forall₂_same_key (markrel.2.imp fun a b h => h.1) p1
    rw [cleanup_list_eq_filter]
    exact p2.sublist (List.filter_sublist _)
  · rw [cleanup_list_eq_filter]
    have h1 := ((mark_trades
      (match_loop_fuel tix ts (B.length + S.length) B S).1
      (match_loop_fuel tix ts (B.length + S.length) B S).2.1
      (match_loop_fuel tix ts (B.length + S.length) B S).2.2).1.filter_sublist
        (p := fun o => o.is_active)).map Order.id
    rw [(mark_trades_map_id _ _ _).1, hmapB] at h1
    exact h1
  · rw [cleanup_list_eq_filter]
    have h1 := ((mark_trades
      (match_loop_fuel tix ts (B.length + S.length) B S).1
      (match_loop_fuel tix ts (B.length + S.length) B S).2.1
      (match_loop_fuel tix ts (B.length + S.length) B S).2.2).2.filter_sublist
        (p := fun o => o.is_active)).map Order.id
    rw [(mark_trades_map_id _ _ _).2, hmapS] at h1
    exact h1
  · intro oid
    have hnn : ∀ o ∈ (mark_trades
        (match_loop_fuel tix ts (B.length + S.length) B S).1
        (match_loop_fuel tix ts (B.length + S.length) B S).2.1
        (match_loop_fuel tix ts (B.length + S.length) B S).2.2).1, 0 ≤ o.quantity := by
      intro o ho
      obtain ⟨a, ha, hrel⟩ := forall₂_mem_right markrel.1 o ho
      rw [hrel.2]
      exact (qty.1 a ha).1
    have h1 : list_qty oid (cleanup_list (mark_trades
        (match_loop_fuel tix ts (B.length + S.length) B S).1
        (match_loop_fuel tix ts (B.length + S.length) B S).2.1
        (match_loop_fuel tix ts (B.length + S.length) B S).2.2).1) ≤
        list_qty oid (mark_trades
        (match_loop_fuel tix ts (B.length + S.length) B S).1
        (match_loop_fuel tix ts (B.length + S.length) B S).2.1
        (match_loop_fuel tix ts (B.length + S.length) B S).2.2).1 := by
      rw [cleanup_list_eq_filter]
      exact list_qty_filter_le _ hnn
    have h2 := (mark_trades_list_qty (match_loop_fuel tix ts (B.length + S.length) B S).1
      (match_loop_fuel tix ts (B.length + S.length) B S).2.1
      (match_loop_fuel tix ts (B.length + S.length) B S).2.2 oid).1
    have h3 := (mlf_accounting tix ts (B.length + S.length) B S oid).1
    linarith
  · intro oid
    have hnn : ∀ o ∈ (mark_trades
        (match_loop_fuel tix ts (B.length + S.length) B S).1
        (match_loop_fuel tix ts (B.length + S.length) B S).2.1
        (match_loop_fuel tix ts (B.length + S.length) B S).2.2).2, 0 ≤ o.quantity := by
      intro o ho
      obtain ⟨a, ha, hrel⟩ := forall₂_mem_right markrel.2 o ho
      rw [hrel.2]
      exact (qty.2.1 a ha).1
    have h1 : list_qty oid (cleanup_list (mark_trades
        (match_loop_fuel tix ts (B.length + S.length) B S).1
        (match_loop_fuel tix ts (B.length + S.length) B S).2.1
        (match_loop_fuel tix ts (B.length + S.length) B S).2.2).2) ≤
        list_qty oid (mark_trades
        (match_loop_fuel tix ts (B.length + S.length) B S).1
        (match_loop_fuel tix ts (B.length + S.length) B S).2.1
        (match_loop_fuel tix ts (B.length + S.length) B S).2.2).2 := by
      rw [cleanup_list_eq_filter]
      exact list_qty_filter_le _ hnn
    have h2 := (mark_trades_list_qty (match_loop_fuel tix ts (B.length + S.length) B S).1
      (match_loop_fuel tix ts (B.length + S.length) B S).2.1
      (match_loop_fuel tix ts (B.length + S.length) B S).2.2 oid).2
    have h3 := (mlf_accounting tix ts (B.length + S.length) B S oid).2
    linarith
  · intro t ht
    obtain ⟨hb, hs, htix⟩ := twf t ht
    exact ⟨hb, hs, htix, qty.2.2 t ht⟩

/-! ## Engine-level bookkeeping helpers -/

theorem list_set_decomp {α : Type} (l : List α) (i : Nat) (x : α) (h : i < l.length) :
    l.set i x = l.take i ++ x :: l.drop (i + 1) := by
  induction l generalizing i with
  | nil => cases h
  | cons a t ih =>
    cases i with
    | zero => rfl
    | succ i =>
      simp only [List.set_cons_succ, List.take_succ_cons, List.drop_succ_cons,
        List.cons_append, List.cons.injEq, true_and]
      exact ih i (by simpa using h)

theorem list_self_decomp {α : Type} (l : List α) (i : Nat) (h : i < l.length) :
    l = l.take i ++ l.get ⟨i, h⟩ :: l.drop (i + 1) := by
  conv_lhs => rw [← List.take_append_drop i l]
  rw [← List.getElem_cons_drop l i h]
  rfl

theorem all_orders_set_decomp (e : StockTradingEngine) (tix : Nat) (bk' : OrderBook)
    (h : tix < e.order_books.length) :
    ∃ A C,
      all_orders e = A ++ ((e.order_books.get ⟨tix, h⟩).buy_orders ++
        (e.order_books.get ⟨tix, h⟩).sell_orders) ++ C ∧
      all_orders { e with order_books := e.order_books.set tix bk' } =
        A ++ (bk'.buy_orders ++ bk'.sell_orders) ++ C := by
  refine ⟨(e.order_books.take tix).flatMap fun bk => bk.buy_orders ++ bk.sell_orders,
    (e.order_books.drop (tix + 1)).flatMap fun bk => bk.buy_orders ++ bk.sell_orders,
    ?_, ?_⟩
  · conv_lhs => rw [all_orders, list_self_decomp e.order_books tix h]
    rw [List.flatMap_append, List.flatMap_cons]
    simp [List.append_assoc]
  · show (e.order_books.set tix bk').flatMap (fun bk => bk.buy_orders ++ bk.sell_orders) = _
    rw [list_set_decomp e.order_books tix bk' h, List.flatMap_append, List.flatMap_cons]
    simp [List.append_assoc]

theorem books_map_sum_set (f : OrderBook → Int) (books : List OrderBook) (tix : Nat)
    (bk' : OrderBook) (h : tix < books.length) :
    ((books.set tix bk').map f).sum + f (books.get ⟨tix, h⟩) =
      (books.map f).sum + f bk' := by
  conv_rhs => rw [list_self_decomp books tix h]
  rw [list_set_decomp books tix bk' h]
  simp only [List.map_append, List.map_cons, List.sum_append, List.sum_cons]
  ring

theorem list_qty_perm {l l' : List Order} (h : l.Perm l') (oid : Nat) :
    list_qty oid l = list_qty oid l' :=
  List.Perm.sum_eq (h.map fun o => if o.id = oid then o.quantity else 0)

theorem insert_perm (l : List Order) (o : Order) :
    (insert_order_sorted l o).Perm (o :: l) := by
  induction l with
  | nil => exact List.Perm.refl _
  | cons h t ih =>
    rw [insert_order_sorted]
    split
    · exact List.Perm.refl _
    · exact (List.Perm.cons h ih).trans (List.Perm.swap o h t)

theorem get_ticker_index_bounds {syms syms2 : List String} {ticker : String} {i : Nat}
    (hg : get_ticker_index syms ticker = some (i, syms2)) :
    i < syms.length ∧ syms2.length = syms.length := by
  unfold get_ticker_index at hg
  cases h1 : syms.findIdx? (fun s => s == ticker) with
  | some j =>
    rw [h1] at hg
    obtain ⟨hj, -⟩ := List.findIdx?_eq_some_iff_getElem.mp h1
    cases hg
    exact ⟨hj, rfl⟩
  | none =>
    rw [h1] at hg
    cases h2 : syms.findIdx? (fun s => s == "") with
    | some j =>
      rw [h2] at hg
      obtain ⟨hj, -⟩ := List.findIdx?_eq_some_iff_getElem.mp h2
      cases hg
      exact ⟨hj, by rw [List.length_set]⟩
    | none =>
      rw [h2] at hg
      cases hg

theorem matchOrder_eq (e : StockTradingEngine) (tix : Nat) (ts : ℚ) :
    matchOrder e tix ts =
      if (e.order_books.getD tix default).buy_orders = [] ∨
         (e.order_books.getD tix default).sell_orders = [] then (e, [])
      else
        commit_match e tix (e.order_books.getD tix default)
          (match_loop tix ts (e.order_books.getD tix default).buy_orders
            (e.order_books.getD tix default).sell_orders).1
          (match_loop tix ts (e.order_books.getD tix default).buy_orders
            (e.order_books.getD tix default).sell_orders).2.1
          (match_loop tix ts (e.order_books.getD tix default).buy_orders
            (e.order_books.getD tix default).sell_orders).2.2 := rfl

theorem matchOrder_preserves (e : StockTradingEngine) (trace : List Submitted)
    (tix : Nat) (ts : ℚ) (htix : tix < e.order_books.length)
    (hpre : PreInv e trace)
    (hnc : ∀ i (hi : i < e.order_books.length), i ≠ tix →
      ∀ b ∈ (e.order_books.get ⟨i, hi⟩).buy_orders,
      ∀ s ∈ (e.order_books.get ⟨i, hi⟩).sell_orders, b.price < s.price) :
    EngineInv (matchOrder e tix ts).1 trace := by
  have hbkget : e.order_books.getD tix default = e.order_books.get ⟨tix, htix⟩ := by
    rw [List.getD_eq_getElem?_getD, List.getElem?_eq_getElem htix]
    rfl
  have hbkmem : e.order_books.getD tix default ∈ e.order_books := by
    rw [hbkget]; exact List.get_mem e.order_books tix htix
  rw [matchOrder_eq]
  by_cases hempty : (e.order_books.getD tix default).buy_orders = [] ∨
      (e.order_books.getD tix default).sell_orders = []
  · rw [if_pos hempty]
    refine ⟨hpre, ?_⟩
    intro bk0 hbk0 b hb s hs
    obtain ⟨⟨i, hi⟩, rfl⟩ := List.mem_iff_get.mp hbk0
    by_cases hcase : i = tix
    · subst hcase
      rw [← hbkget] at hb hs
      rcases hempty with hempty | hempty
      · rw [hempty] at hb; cases hb
      · rw [hempty] at hs; cases hs
    · exact hnc i hi hcase b hb s hs
  · rw [if_neg hempty]
    -- names for the book and its lists
    set bk := e.order_books.getD tix default with hbkdef
    set B := bk.buy_orders with hB
    set S := bk.sell_orders with hS
    -- book-level facts
    obtain ⟨A, C, hold, hnew⟩ := all_orders_set_decomp e tix
      (cleanup_inactive_orders { bk with
        buy_orders := (mark_trades (match_loop tix ts B S).1
          (match_loop tix ts B S).2.1 (match_loop tix ts B S).2.2).1,
        sell_orders := (mark_trades (match_loop tix ts B S).1
          (match_loop tix ts B S).2.1 (match_loop tix ts B S).2.2).2,
        version := bk.version + 1 }) htix
    rw [← hbkget] at hold
    have hmemBS : ∀ o ∈ B ++ S, o ∈ all_orders e := by
      intro o ho
      rw [hold]
      exact List.mem_append_left C (List.mem_append_right A ho)
    have hnodupBS : ((B ++ S).map Order.id).Nodup := by
      have := hpre.global_nodup
      rw [hold] at this
      simp only [List.map_append] at this ⊢
      exact (this.of_append_left).of_append_right
    have hq : ∀ o ∈ B ++ S, 0 ≤ o.quantity ∧ (o.is_active = true → 0 < o.quantity) := by
      intro o ho
      have hm := hmemBS o ho
      exact ⟨le_of_lt (hpre.qpos o hm), fun h => hpre.qpos o hm⟩
    have spec := commit_lists_spec tix ts B S (match_loop tix ts B S)
      (mark_trades (match_loop tix ts B S).1 (match_loop tix ts B S).2.1
        (match_loop tix ts B S).2.2)
      (cleanup_list (mark_trades (match_loop tix ts B S).1 (match_loop tix ts B S).2.1
        (match_loop tix ts B S).2.2).1)
      (cleanup_list (mark_trades (match_loop tix ts B S).1 (match_loop tix ts B S).2.1
        (match_loop tix ts B S).2.2).2)
      (hpre.buy_sorted bk hbkmem) (hpre.sell_sorted bk hbkmem) hnodupBS hq
      rfl rfl rfl rfl
    obtain ⟨survB, survS, hcross, hsortB2, hsortS2, hsubB, hsubS, hacctB, hacctS, htr⟩ := spec
    -- the committed book and engine
    set book2 := cleanup_inactive_orders { bk with
        buy_orders := (mark_trades (match_loop tix ts B S).1
          (match_loop tix ts B S).2.1 (match_loop tix ts B S).2.2).1,
        sell_orders := (mark_trades (match_loop tix ts B S).1
          (match_loop tix ts B S).2.1 (match_loop tix ts B S).2.2).2,
        version := bk.version + 1 } with hbook2
    have hbuy2 : book2.buy_orders = cleanup_list (mark_trades (match_loop tix ts B S).1
        (match_loop tix ts B S).2.1 (match_loop tix ts B S).2.2).1 := rfl
    have hsell2 : book2.sell_orders = cleanup_list (mark_trades (match_loop tix ts B S).1
        (match_loop tix ts B S).2.1 (match_loop tix ts B S).2.2).2 := rfl
    set e2 : StockTradingEngine :=
      { e with order_books := e.order_books.set tix book2,
               executed_trades := e.executed_trades ++ (match_loop tix ts B S).1 }
      with he2
    have hres : (commit_match e tix bk (match_loop tix ts B S).1
        (match_loop tix ts B S).2.1 (match_loop tix ts B S).2.2).1 = e2 := rfl
    rw [hres]
    have hnew2 : all_orders e2 =
        A ++ (book2.buy_orders ++ book2.sell_orders) ++ C := hnew
    -- membership in the new engine implies membership in the old one
    have hmem_new : ∀ o, o ∈ all_orders e2 → o ∈ all_orders e := by
      intro o ho
      rw [hnew2] at ho
      rcases List.mem_append.mp ho with ho | hoC
      · rcases List.mem_append.mp ho with hoA | hoM
        · rw [hold]
          exact List.mem_append_left C (List.mem_append_left _ hoA)
        · rcases List.mem_append.mp hoM with hoB | hoS
          · exact hmemBS o (List.mem_append_left S (survB o hoB).1)
          · exact hmemBS o (List.mem_append_right B (survS o hoS).1)
      · rw [hold]
        exact List.mem_append_right _ hoC
    refine ⟨⟨?_, ?_, ?_, ?_, ?_, ?_, ?_, ?_, ?_, ?_, ?_, ?_, ?_, ?_, ?_, ?_, ?_, ?_, ?_⟩, ?_⟩
    · simpa using hpre.books_len
    · exact hpre.syms_len
    · intro bk0 hbk0
      rcases List.mem_or_eq_of_mem_set hbk0 with hbk0 | rfl
      · exact hpre.buy_sorted bk0 hbk0
      · exact hsortB2
    · intro bk0 hbk0
      rcases List.mem_or_eq_of_mem_set hbk0 with hbk0 | rfl
      · exact hpre.sell_sorted bk0 hbk0
      · exact hsortS2
    · intro bk0 hbk0 o ho
      rcases List.mem_or_eq_of_mem_set hbk0 with hbk0 | rfl
      · exact hpre.buy_types bk0 hbk0 o ho
      · exact hpre.buy_types bk hbkmem o (survB o ho).1
    · intro bk0 hbk0 o ho
      rcases List.mem_or_eq_of_mem_set hbk0 with hbk0 | rfl
      · exact hpre.sell_types bk0 hbk0 o ho
      · exact hpre.sell_types bk hbkmem o (survS o ho).1
    · intro o ho
      rw [hnew2] at ho
      rcases List.mem_append.mp ho with ho | hoC
      · rcases List.mem_append.mp ho with hoA | hoM
        · refine hpre.all_active o ?_
          rw [hold]
          exact List.mem_append_left C (List.mem_append_left _ hoA)
        · rcases List.mem_append.mp hoM with hoB | hoS
          · exact (survB o hoB).2
          · exact (survS o hoS).2
      · refine hpre.all_active o ?_
        rw [hold]
        exact List.mem_append_right _ hoC
    · intro o ho
      exact hpre.qpos o (hmem_new o ho)
    · intro o ho
      exact hpre.ids_lt o (hmem_new o ho)
    · have hsub : ((all_orders e2).map Order.id).Sublist ((all_orders e).map Order.id) := by
        rw [hnew2, hold]
        simp only [List.map_append]
        exact ((List.Sublist.refl (A.map Order.id)).append
          (hsubB.append hsubS)).append (List.Sublist.refl (C.map Order.id))
      exact hpre.global_nodup.sublist hsub
    · intro o ho
      exact hpre.order_from_trace o (hmem_new o ho)
    · exact hpre.trace_ids_lt
    · exact hpre.trace_nodup
    · exact hpre.trace_pos
    · intro t ht
      rcases List.mem_append.mp ht with ht | ht
      · exact hpre.journal_ids_lt t ht
      · obtain ⟨⟨b, hbB, hbid, -, -⟩, ⟨s, hsS, hsid, -, -⟩, -, -⟩ := htr t ht
        constructor
        · rw [← hbid]
          exact hpre.ids_lt b (hmemBS b (List.mem_append_left S hbB))
        · rw [← hsid]
          exact hpre.ids_lt s (hmemBS s (List.mem_append_right B hsS))
    · intro sub hsub
      have hfold := hpre.fills sub hsub
      rw [fill_sum_append]
      cases hty : sub.type
      · rw [hty] at hfold
        have hsum := books_map_sum_set (fun bk0 => list_qty sub.id bk0.buy_orders)
          e.order_books tix book2 htix
        rw [← hbkget] at hsum
        have hacct := hacctB sub.id
        simp only [side_qty] at hfold ⊢
        rw [hbuy2] at hsum
        simp only [← hB] at hsum
        linarith
      · rw [hty] at hfold
        have hsum := books_map_sum_set (fun bk0 => list_qty sub.id bk0.sell_orders)
          e.order_books tix book2 htix
        rw [← hbkget] at hsum
        have hacct := hacctS sub.id
        simp only [side_qty] at hfold ⊢
        rw [hsell2] at hsum
        simp only [← hS] at hsum
        linarith
    · intro t ht
      rcases List.mem_append.mp ht with ht | ht
      · exact hpre.journal_buy t ht
      · obtain ⟨⟨b, hbB, hbid, -, hbpr⟩, -, -, -⟩ := htr t ht
        refine ⟨⟨b.id, b.type, b.quantity, b.price⟩,
          hpre.order_from_trace b (hmemBS b (List.mem_append_left S hbB)), hbid, ?_, hbpr⟩
        exact hpre.buy_types bk hbkmem b hbB
    · intro t ht
      rcases List.mem_append.mp ht with ht | ht
      · exact hpre.journal_sell t ht
      · obtain ⟨-, ⟨s, hsS, hsid, -, hspr⟩, -, -⟩ := htr t ht
        refine ⟨⟨s.id, s.type, s.quantity, s.price⟩,
          hpre.order_from_trace s (hmemBS s (List.mem_append_right B hsS)), hsid, ?_, hspr⟩
        exact hpre.sell_types bk hbkmem s hsS
    · intro t ht
      rcases List.mem_append.mp ht with ht | ht
      · exact hpre.journal_qty_pos t ht
      · obtain ⟨-, -, -, hq0⟩ := htr t ht
        exact hq0
    · intro bk0 hbk0 b hb s hs
      obtain ⟨⟨i, hi⟩, rfl⟩ := List.mem_iff_get.mp hbk0
      by_cases hcase : i = tix
      · have : (e.order_books.set tix book2).get ⟨i, hi⟩ = book2 := by
          simp only [List.get_eq_getElem]
          rw [List.getElem_set]
          rw [if_pos hcase.symm]
        rw [this] at hb hs
        exact hcross b hb s hs
      · have hi2 : i < e.order_books.length := by simpa using hi
        have : (e.order_books.set tix book2).get ⟨i, hi⟩ = e.order_books.get ⟨i, hi2⟩ := by
          simp only [List.get_eq_getElem]
          exact List.getElem_set_ne (fun h => hcase h.symm) _
        rw [this] at hb hs
        exact hnc i hi2 hcase b hb s hs

theorem addOrder_step (e : StockTradingEngine) (trace : List Submitted)
    (ty : OrderType) (ticker : String) (qty : Int) (price ts : ℚ)
    (hinv : EngineInv e trace) :
    (∃ err, addOrder e ty ticker qty price ts = (e, Except.error err)) ∨
    ((addOrder e ty ticker qty price ts).2 = Except.ok e.order_counter ∧
      EngineInv (addOrder e ty ticker qty price ts).1
        (trace ++ [⟨e.order_counter, ty, qty, price⟩])) := by
  obtain ⟨hpre, hcross⟩ := hinv
  simp only [addOrder, addOrder_conc]
  by_cases ht : ticker = ""
  · rw [if_pos ht]
    exact Or.inl ⟨.InvalidInput, rfl⟩
  rw [if_neg ht]
  by_cases hq : qty ≤ 0
  · rw [if_pos hq]
    exact Or.inl ⟨.InvalidInput, rfl⟩
  rw [if_neg hq]
  by_cases hp : price ≤ 0
  · rw [if_pos hp]
    exact Or.inl ⟨.InvalidInput, rfl⟩
  rw [if_neg hp]
  cases hg : get_ticker_index e.ticker_symbols ticker with
  | none => exact Or.inl ⟨.CapacityExceeded, rfl⟩
  | some pr =>
    obtain ⟨tix, syms⟩ := pr
    refine Or.inr ⟨rfl, ?_⟩
    have hgb := get_ticker_index_bounds hg
    have htix : tix < e.order_books.length := by
      rw [hpre.books_len, ← hpre.syms_len]
      exact hgb.1
    have hqpos : (0 : Int) < qty := not_le.mp hq
    have hppos : (0 : ℚ) < price := not_le.mp hp
    set new_order : Order := ⟨e.order_counter, ty, tix, qty, price, ts, true⟩
      with hno
    set bk := e.order_books.getD tix default with hbkd
    set book' := (if ty = OrderType.BUY then
        { bk with buy_orders := insert_order_sorted bk.buy_orders new_order }
      else
        { bk with sell_orders := insert_order_sorted bk.sell_orders new_order })
      with hbook
    set e2 : StockTradingEngine :=
      { e with ticker_symbols := syms, order_counter := e.order_counter + 1,
               order_books := e.order_books.set tix book' } with he2
    show EngineInv (matchOrder e2 tix ts).1
      (trace ++ [⟨e.order_counter, ty, qty, price⟩])
    have hbkget : bk = e.order_books.get ⟨tix, htix⟩ := by
      rw [hbkd, List.getD_eq_getElem?_getD, List.getElem?_eq_getElem htix]
      rfl
    have hbkmem : bk ∈ e.order_books := by
      rw [hbkget]
      exact List.get_mem e.order_books tix htix
    have hbook2 :
        (book'.buy_orders = insert_order_sorted bk.buy_orders new_order ∧
         book'.sell_orders = bk.sell_orders ∧ ty = OrderType.BUY) ∨
        (book'.buy_orders = bk.buy_orders ∧
         book'.sell_orders = insert_order_sorted bk.sell_orders new_order ∧
         ty = OrderType.SELL) := by
      rw [hbook]
      by_cases hty : ty = OrderType.BUY
      · rw [if_pos hty]
        exact Or.inl ⟨rfl, rfl, hty⟩
      · rw [if_neg hty]
        have hty2 : ty = OrderType.SELL := by
          cases ty
          · exact absurd rfl hty
          · rfl
        exact Or.inr ⟨rfl, rfl, hty2⟩
    have hMperm : (book'.buy_orders ++ book'.sell_orders).Perm
        (new_order :: (bk.buy_orders ++ bk.sell_orders)) := by
      rcases hbook2 with ⟨hb, hs, -⟩ | ⟨hb, hs, -⟩
      · rw [hb, hs]
        exact (insert_perm bk.buy_orders new_order).append_right bk.sell_orders
      · rw [hb, hs]
        exact ((insert_perm bk.sell_orders new_order).append_left
          bk.buy_orders).trans List.perm_middle
    obtain ⟨A, C, hold, hnew⟩ := all_orders_set_decomp e tix book' htix
    rw [← hbkget] at hold
    have hnew2 : all_orders e2 =
        A ++ (book'.buy_orders ++ book'.sell_orders) ++ C := hnew
    have hperm_all : (all_orders e2).Perm (new_order :: all_orders e) := by
      rw [hnew2, hold]
      refine ((hMperm.append_left A).append_right C).trans ?_
      refine (List.perm_middle.append_right C).trans ?_
      rw [List.cons_append]
    have hmem2 : ∀ o ∈ all_orders e2, o = new_order ∨ o ∈ all_orders e := by
      intro o ho
      have hm := hperm_all.mem_iff.mp ho
      rcases List.mem_cons.mp hm with h | h
      · exact Or.inl h
      · exact Or.inr h
    have hnotin : new_order.id ∉ (all_orders e).map Order.id := by
      intro hmem
      obtain ⟨o, ho, hoid⟩ := List.mem_map.mp hmem
      have hlt := hpre.ids_lt o ho
      have hni : new_order.id = e.order_counter := rfl
      rw [hni] at hoid
      omega
    have hnodup2 : ((all_orders e2).map Order.id).Nodup := by
      refine ((hperm_all.map Order.id).nodup_iff).mpr ?_
      exact List.nodup_cons.mpr ⟨hnotin, hpre.global_nodup⟩
    have hlq_ins : ∀ (oid : Nat) (l : List Order),
        list_qty oid (insert_order_sorted l new_order) =
          (if e.order_counter = oid then qty else 0) + list_qty oid l := by
      intro oid l
      rw [list_qty_perm (insert_perm l new_order) oid, list_qty_cons]
    have hside2 : ∀ side oid, side_qty side oid e2 =
        side_qty side oid e +
          (if ty = side ∧ e.order_counter = oid then qty else 0) := by
      intro side oid
      cases side
      · have hsum := books_map_sum_set (fun bk0 => list_qty oid bk0.buy_orders)
          e.order_books tix book' htix
        rw [← hbkget] at hsum
        have hsum2 : ((e.order_books.set tix book').map fun bk0 =>
              list_qty oid bk0.buy_orders).sum + list_qty oid bk.buy_orders =
            (e.order_books.map fun bk0 => list_qty oid bk0.buy_orders).sum +
              list_qty oid book'.buy_orders := hsum
        have hb' : list_qty oid book'.buy_orders = list_qty oid bk.buy_orders +
            (if ty = OrderType.BUY ∧ e.order_counter = oid then qty else 0) := by
          rcases hbook2 with ⟨hb, -, htyB⟩ | ⟨hb, -, htyS⟩
          · rw [hb, hlq_ins]
            by_cases hoid : e.order_counter = oid
            · rw [if_pos hoid, if_pos ⟨htyB, hoid⟩]
              ring
            · rw [if_neg hoid, if_neg fun hcon => hoid hcon.2]
              ring
          · have hcon : ¬ (ty = OrderType.BUY ∧ e.order_counter = oid) := by
              rintro ⟨h1, -⟩
              rw [htyS] at h1
              exact absurd h1 (by decide)
            rw [hb, if_neg hcon]
            ring
        show ((e.order_books.set tix book').map fun bk0 =>
              list_qty oid bk0.buy_orders).sum =
            (e.order_books.map fun bk0 => list_qty oid bk0.buy_orders).sum +
              (if ty = OrderType.BUY ∧ e.order_counter = oid then qty else 0)
        rw [hb'] at hsum2
        linarith
      · have hsum := books_map_sum_set (fun bk0 => list_qty oid bk0.sell_orders)
          e.order_books tix book' htix
        rw [← hbkget] at hsum
        have hsum2 : ((e.order_books.set tix book').map fun bk0 =>
              list_qty oid bk0.sell_orders).sum + list_qty oid bk.sell_orders =
            (e.order_books.map fun bk0 => list_qty oid bk0.sell_orders).sum +
              list_qty oid book'.sell_orders := hsum
        have hs' : list_qty oid book'.sell_orders = list_qty oid bk.sell_orders +
            (if ty = OrderType.SELL ∧ e.order_counter = oid then qty else 0) := by
          rcases hbook2 with ⟨-, hs, htyB⟩ | ⟨-, hs, htyS⟩
          · have hcon : ¬ (ty = OrderType.SELL ∧ e.order_counter = oid) := by
              rintro ⟨h1, -⟩
              rw [htyB] at h1
              exact absurd h1 (by decide)
            rw [hs, if_neg hcon]
            ring
          · rw [hs, hlq_ins]
            by_cases hoid : e.order_counter = oid
            · rw [if_pos hoid, if_pos ⟨htyS, hoid⟩]
              ring
            · rw [if_neg hoid, if_neg fun hcon => hoid hcon.2]
              ring
        show ((e.order_books.set tix book').map fun bk0 =>
              list_qty oid bk0.sell_orders).sum =
            (e.order_books.map fun bk0 => list_qty oid bk0.sell_orders).sum +
              (if ty = OrderType.SELL ∧ e.order_counter = oid then qty else 0)
        rw [hs'] at hsum2
        linarith
    refine matchOrder_preserves e2 (trace ++ [⟨e.order_counter, ty, qty, price⟩])
      tix ts ?_ ?_ ?_
    · show tix < (e.order_books.set tix book').length
      rw [List.length_set]
      exact htix
    · refine ⟨?_, ?_, ?_, ?_, ?_, ?_, ?_, ?_, ?_, ?_, ?_, ?_, ?_, ?_, ?_, ?_,
        ?_, ?_, ?_⟩
      · show (e.order_books.set tix book').length = e.max_tickers
        rw [List.length_set]
        exact hpre.books_len
      · show syms.length = e.max_tickers
        rw [hgb.2]
        exact hpre.syms_len
      · intro bk0 hbk0
        rcases List.mem_or_eq_of_mem_set hbk0 with h0 | rfl
        · exact hpre.buy_sorted bk0 h0
        · rcases hbook2 with ⟨hb, -, htyB⟩ | ⟨hb, -, -⟩
          · rw [hb]
            exact insert_pairwise OrderType.BUY bk.buy_orders new_order htyB
              (hpre.buy_sorted bk hbkmem)
          · rw [hb]
            exact hpre.buy_sorted bk hbkmem
      · intro bk0 hbk0
        rcases List.mem_or_eq_of_mem_set hbk0 with h0 | rfl
        · exact hpre.sell_sorted bk0 h0
        · rcases hbook2 with ⟨-, hs, -⟩ | ⟨-, hs, htyS⟩
          · rw [hs]
            exact hpre.sell_sorted bk hbkmem
          · rw [hs]
            exact insert_pairwise OrderType.SELL bk.sell_orders new_order htyS
              (hpre.sell_sorted bk hbkmem)
      · intro bk0 hbk0 o ho
        rcases List.mem_or_eq_of_mem_set hbk0 with h0 | rfl
        · exact hpre.buy_types bk0 h0 o ho
        · rcases hbook2 with ⟨hb, -, htyB⟩ | ⟨hb, -, -⟩
          · rw [hb] at ho
            rcases insert_mem.mp ho with rfl | ho
            · exact htyB
            · exact hpre.buy_types bk hbkmem o ho
          · rw [hb] at ho
            exact hpre.buy_types bk hbkmem o ho
      · intro bk0 hbk0 o ho
        rcases List.mem_or_eq_of_mem_set hbk0 with h0 | rfl
        · exact hpre.sell_types bk0 h0 o ho
        · rcases hbook2 with ⟨-, hs, -⟩ | ⟨-, hs, htyS⟩
          · rw [hs] at ho
            exact hpre.sell_types bk hbkmem o ho
          · rw [hs] at ho
            rcases insert_mem.mp ho with rfl | ho
            · exact htyS
            · exact hpre.sell_types bk hbkmem o ho
      · intro o ho
        rcases hmem2 o ho with rfl | ho
        · rfl
        · exact hpre.all_active o ho
      · intro o ho
        rcases hmem2 o ho with rfl | ho
        · exact hqpos
        · exact hpre.qpos o ho
      · intro o ho
        rcases hmem2 o ho with rfl | ho
        · show e.order_counter < e.order_counter + 1
          omega
        · have hlt := hpre.ids_lt o ho
          show o.id < e.order_counter + 1
          omega
      · exact hnodup2
      · intro o ho
        rcases hmem2 o ho with rfl | ho
        · exact List.mem_append_right _ (List.mem_singleton.mpr rfl)
        · exact List.mem_append_left _ (hpre.order_from_trace o ho)
      · intro s hs
        rcases List.mem_append.mp hs with hs | hs
        · have hlt := hpre.trace_ids_lt s hs
          show s.id < e.order_counter + 1
          omega
        · rw [List.mem_singleton] at hs
          subst hs
          show e.order_counter < e.order_counter + 1
          omega
      · rw [List.map_append]
        refine List.Nodup.append hpre.trace_nodup (by simp) ?_
        intro x hx hx2
        simp only [List.map_cons, List.map_nil, List.mem_singleton] at hx2
        obtain ⟨s, hs, hsid⟩ := List.mem_map.mp hx
        have hlt := hpre.trace_ids_lt s hs
        have hxc : x = e.order_counter := hx2
        omega
      · intro s hs
        rcases List.mem_append.mp hs with hs | hs
        · exact hpre.trace_pos s hs
        · rw [List.mem_singleton] at hs
          subst hs
          exact ⟨hqpos, hppos⟩
      · intro t ht
        have hj := hpre.journal_ids_lt t ht
        show t.buy_order_id < e.order_counter + 1 ∧
          t.sell_order_id < e.order_counter + 1
        omega
      · intro s hs
        rcases List.mem_append.mp hs with hs | hs
        · have hf := hpre.fills s hs
          have hsid : s.id < e.order_counter := hpre.trace_ids_lt s hs
          show fill_sum s.type s.id e.executed_trades +
            side_qty s.type s.id e2 ≤ s.quantity
          rw [hside2 s.type s.id,
            if_neg fun hcon => absurd hcon.2 (by omega)]
          rw [add_zero]
          exact hf
        · rw [List.mem_singleton] at hs
          subst hs
          show fill_sum ty e.order_counter e.executed_trades +
            side_qty ty e.order_counter e2 ≤ qty
          have hf0 : fill_sum ty e.order_counter e.executed_trades = 0 := by
            refine fill_sum_eq_zero ?_
            intro t ht
            have hj := hpre.journal_ids_lt t ht
            have hcases : ∀ side : OrderType,
                trade_party side t = t.buy_order_id ∨
                trade_party side t = t.sell_order_id := by
              intro side
              cases side
              · exact Or.inl rfl
              · exact Or.inr rfl
            rcases hcases ty with h | h <;> rw [h] <;> omega
          have hs0 : ∀ side, side_qty side e.order_counter e = 0 := by
            intro side
            have hz : ∀ (f : OrderBook → List Order),
                (∀ bk0 ∈ e.order_books, ∀ o ∈ f bk0, o ∈ all_orders e) →
                (e.order_books.map fun bk0 =>
                  list_qty e.order_counter (f bk0)).sum = 0 := by
              intro f hf
              refine List.sum_eq_zero ?_
              intro x hx
              obtain ⟨bk0, hbk0, rfl⟩ := List.mem_map.mp hx
              refine list_qty_eq_zero ?_
              intro o ho
              have hlt := hpre.ids_lt o (hf bk0 hbk0 o ho)
              omega
            cases side
            · exact hz (fun bk0 => bk0.buy_orders) fun bk0 hbk0 o ho =>
                List.mem_flatMap.mpr ⟨bk0, hbk0, List.mem_append_left _ ho⟩
            · exact hz (fun bk0 => bk0.sell_orders) fun bk0 hbk0 o ho =>
                List.mem_flatMap.mpr ⟨bk0, hbk0, List.mem_append_right _ ho⟩
          rw [hside2 ty e.order_counter, if_pos ⟨rfl, rfl⟩, hf0, hs0 ty]
          omega
      · intro t ht
        obtain ⟨s, hs, h1, h2, h3⟩ := hpre.journal_buy t ht
        exact ⟨s, List.mem_append_left _ hs, h1, h2, h3⟩
      · intro t ht
        obtain ⟨s, hs, h1, h2, h3⟩ := hpre.journal_sell t ht
        exact ⟨s, List.mem_append_left _ hs, h1, h2, h3⟩
      · intro t ht
        exact hpre.journal_qty_pos t ht
    · intro i hi hne b hb s hs
      have hi2 : i < e.order_books.length := by
        have h0 : i < (e.order_books.set tix book').length := hi
        rwa [List.length_set] at h0
      have hget : e2.order_books.get ⟨i, hi⟩ = e.order_books.get ⟨i, hi2⟩ := by
        show (e.order_books.set tix book').get ⟨i, hi⟩ = _
        simp only [List.get_eq_getElem]
        exact List.getElem_set_ne (fun h => hne h.symm) _
      rw [hget] at hb hs
      exact hcross _ (List.get_mem e.order_books i hi2) b hb s hs

theorem initEngine_inv (max_tickers : Nat) : EngineInv (initEngine max_tickers) [] := by
  have hmem0 : ∀ o : Order, o ∈ all_orders (initEngine max_tickers) → False := by
    intro o ho
    obtain ⟨bk, hbk, ho2⟩ := List.mem_flatMap.mp ho
    obtain ⟨i, -, rfl⟩ := List.mem_map.mp hbk
    simp at ho2
  have h0 : all_orders (initEngine max_tickers) = [] :=
    List.eq_nil_iff_forall_not_mem.mpr fun o ho => hmem0 o ho
  refine ⟨⟨?_, ?_, ?_, ?_, ?_, ?_, ?_, ?_, ?_, ?_, ?_, ?_, ?_, ?_, ?_, ?_,
      ?_, ?_, ?_⟩, ?_⟩
  · simp [initEngine]
  · simp [initEngine]
  · intro bk hbk
    obtain ⟨i, -, rfl⟩ := List.mem_map.mp hbk
    exact List.Pairwise.nil
  · intro bk hbk
    obtain ⟨i, -, rfl⟩ := List.mem_map.mp hbk
    exact List.Pairwise.nil
  · intro bk hbk o ho
    obtain ⟨i, -, rfl⟩ := List.mem_map.mp hbk
    exact absurd ho (List.not_mem_nil o)
  · intro bk hbk o ho
    obtain ⟨i, -, rfl⟩ := List.mem_map.mp hbk
    exact absurd ho (List.not_mem_nil o)
  · intro o ho
    exact absurd ho (h0 ▸ List.not_mem_nil o)
  · intro o ho
    exact absurd ho (h0 ▸ List.not_mem_nil o)
  · intro o ho
    exact absurd ho (h0 ▸ List.not_mem_nil o)
  · rw [h0]
    exact List.nodup_nil
  · intro o ho
    exact absurd ho (h0 ▸ List.not_mem_nil o)
  · intro s hs
    exact absurd hs (List.not_mem_nil s)
  · exact List.nodup_nil
  · intro s hs
    exact absurd hs (List.not_mem_nil s)
  · intro t ht
    exact absurd ht (List.not_mem_nil t)
  · intro s hs
    exact absurd hs (List.not_mem_nil s)
  · intro t ht
    exact absurd ht (List.not_mem_nil t)
  · intro t ht
    exact absurd ht (List.not_mem_nil t)
  · intro t ht
    exact absurd ht (List.not_mem_nil t)
  · intro bk hbk b hb s hs
    obtain ⟨i, -, rfl⟩ := List.mem_map.mp hbk
    exact absurd hb (List.not_mem_nil b)

theorem runOpsAux_inv (ops : List SubmitOp) : ∀ (e : StockTradingEngine) (t : Nat)
    (trace : List Submitted), EngineInv e trace →
    EngineInv (runOpsAux e t ops).1 (trace ++ (runOpsAux e t ops).2) := by
  induction ops with
  | nil =>
    intro e t trace h
    show EngineInv e (trace ++ [])
    simpa using h
  | cons op rest ih =>
    intro e t trace h
    rcases addOrder_step e trace op.order_type op.ticker op.quantity op.price
        ((t : ℚ)) h with ⟨err, heq⟩ | ⟨hok, hinv2⟩
    · have hrw : runOpsAux e t (op :: rest) = runOpsAux e (t + 1) rest := by
        rw [runOpsAux, heq]
      rw [hrw]
      exact ih e (t + 1) trace h
    · have heq : addOrder e op.order_type op.ticker op.quantity op.price (t : ℚ) =
          ((addOrder e op.order_type op.ticker op.quantity op.price (t : ℚ)).1,
           Except.ok e.order_counter) := by
        rw [← hok]
      have hrw : runOpsAux e t (op :: rest) =
          ((runOpsAux (addOrder e op.order_type op.ticker op.quantity op.price
              (t : ℚ)).1 (t + 1) rest).1,
           (⟨e.order_counter, op.order_type, op.quantity, op.price⟩ : Submitted) ::
             (runOpsAux (addOrder e op.order_type op.ticker op.quantity op.price
               (t : ℚ)).1 (t + 1) rest).2) := by
        rw [runOpsAux, heq]
      rw [hrw]
      have hrec := ih (addOrder e op.order_type op.ticker op.quantity op.price
          (t : ℚ)).1 (t + 1)
        (trace ++ [⟨e.order_counter, op.order_type, op.quantity, op.price⟩]) hinv2
      simpa [List.append_assoc] using hrec

theorem runOps_inv (max_tickers : Nat) (ops : List SubmitOp) :
    EngineInv (runOps max_tickers ops) (submittedTrace max_tickers ops) := by
  have h := runOpsAux_inv ops (initEngine max_tickers) 0 [] (initEngine_inv max_tickers)
  simpa [runOps, submittedTrace] using h

theorem side_qty_nonneg (side : OrderType) (oid : Nat) (e : StockTradingEngine)
    (h : ∀ o ∈ all_orders e, 0 < o.quantity) : 0 ≤ side_qty side oid e := by
  have hz : ∀ (f : OrderBook → List Order),
      (∀ bk0 ∈ e.order_books, ∀ o ∈ f bk0, o ∈ all_orders e) →
      0 ≤ (e.order_books.map fun bk0 => list_qty oid (f bk0)).sum := by
    intro f hf
    refine List.sum_nonneg ?_
    intro x hx
    obtain ⟨bk0, hbk0, rfl⟩ := List.mem_map.mp hx
    refine list_qty_nonneg ?_
    intro o ho
    exact le_of_lt (h o (hf bk0 hbk0 o ho))
  cases side
  · exact hz (fun bk0 => bk0.buy_orders) fun bk0 hbk0 o ho =>
      List.mem_flatMap.mpr ⟨bk0, hbk0, List.mem_append_left _ ho⟩
  · exact hz (fun bk0 => bk0.sell_orders) fun bk0 hbk0 o ho =>
      List.mem_flatMap.mpr ⟨bk0, hbk0, List.mem_append_right _ ho⟩

/-- C8: at quiescence after any sequence of completed submissions, every bid
price in a book is strictly below every ask price of the same book — so
whenever both sides are nonempty the best (maximum) bid is strictly below the
best (minimum) ask, and otherwise one side is empty. -/
theorem C8_books_noncrossing (max_tickers : Nat) (ops : List SubmitOp) :
    ∀ bk ∈ (runOps max_tickers ops).order_books,
      ∀ b ∈ bk.buy_orders, ∀ s ∈ bk.sell_orders, b.price < s.price :=
  (runOps_inv max_tickers ops).2

theorem C8_witness :
    (⟨0, OrderType.BUY, 0, 10, 90, 0, true⟩ : Order).price <
      (⟨1, OrderType.SELL, 0, 10, 100, 1, true⟩ : Order).price :=
  C8_books_noncrossing 1 [⟨OrderType.BUY, "STOCK0000", 10, 90⟩,
      ⟨OrderType.SELL, "STOCK0000", 10, 100⟩]
    ⟨0, [⟨0, OrderType.BUY, 0, 10, 90, 0, true⟩],
        [⟨1, OrderType.SELL, 0, 10, 100, 1, true⟩], 1⟩ (by decide)
    ⟨0, OrderType.BUY, 0, 10, 90, 0, true⟩ (by decide)
    ⟨1, OrderType.SELL, 0, 10, 100, 1, true⟩ (by decide)

/-- C5: for every accepted submission, the total quantity of committed trades
referencing its id on its side never exceeds the quantity supplied at
submission; and every trade the matching pass emits references a buy order and
a sell order that are active members of the lists the commit works on. -/
theorem C5_no_overfill (max_tickers : Nat) (ops : List SubmitOp) :
    (∀ sub ∈ submittedTrace max_tickers ops,
      fill_sum sub.type sub.id (runOps max_tickers ops).executed_trades ≤
        sub.quantity) ∧
    (∀ (tix : Nat) (ts : ℚ) (buys sells : List Order),
      ∀ t ∈ (match_loop tix ts buys sells).1,
        (∃ b ∈ buys, b.id = t.buy_order_id ∧ b.is_active = true) ∧
        (∃ s ∈ sells, s.id = t.sell_order_id ∧ s.is_active = true)) := by
  constructor
  · intro sub hsub
    obtain ⟨hpre, -⟩ := runOps_inv max_tickers ops
    have hf := hpre.fills sub hsub
    have hs := side_qty_nonneg sub.type sub.id (runOps max_tickers ops) hpre.qpos
    linarith
  · intro tix ts buys sells t ht
    obtain ⟨⟨b, hb, hbid, hba, -⟩, ⟨s, hs, hsid, hsa, -⟩, -⟩ :=
      mlf_trades_wf tix ts (buys.length + sells.length) buys sells t ht
    exact ⟨⟨b, hb, hbid, hba⟩, ⟨s, hs, hsid, hsa⟩⟩

theorem C5_witness :
    (fill_sum OrderType.SELL 0 (runOps 1 [⟨OrderType.SELL, "STOCK0000", 5, 50⟩,
        ⟨OrderType.BUY, "STOCK0000", 10, 60⟩]).executed_trades ≤ 5) ∧
    ((∃ b ∈ ([⟨1, OrderType.BUY, 0, 10, 60, 1, true⟩] : List Order),
        b.id = (⟨1, 0, 0, 5, 50, 1⟩ : Trade).buy_order_id ∧ b.is_active = true) ∧
     (∃ s ∈ ([⟨0, OrderType.SELL, 0, 5, 50, 0, true⟩] : List Order),
        s.id = (⟨1, 0, 0, 5, 50, 1⟩ : Trade).sell_order_id ∧ s.is_active = true)) :=
  ⟨(C5_no_overfill 1 [⟨OrderType.SELL, "STOCK0000", 5, 50⟩,
      ⟨OrderType.BUY, "STOCK0000", 10, 60⟩]).1
      ⟨0, OrderType.SELL, 5, 50⟩ (by decide),
   (C5_no_overfill 1 []).2 0 1 [⟨1, OrderType.BUY, 0, 10, 60, 1, true⟩]
      [⟨0, OrderType.SELL, 0, 5, 50, 0, true⟩] ⟨1, 0, 0, 5, 50, 1⟩ (by decide)⟩

/-- C7 (amended): inserting into a book-side list that is sorted by its
declared key preserves that sort; the new order is placed so that every
equal-priced order before it arrived no later than it and every equal-priced
order after it arrived strictly later — i.e. it goes after an equal-priced
existing order iff its timestamp is not earlier; and at quiescence both
sequences of every book are sorted by their declared key. -/
theorem C7_amended_insert_sorted :
    (∀ (side : OrderType) (l : List Order) (o : Order), o.type = side →
      List.Pairwise (book_le side) l →
      List.Pairwise (book_le side) (insert_order_sorted l o)) ∧
    (∀ (side : OrderType) (l : List Order) (o : Order), o.type = side →
      List.Pairwise (book_le side) l →
      ∃ l₁ l₂, l = l₁ ++ l₂ ∧ insert_order_sorted l o = l₁ ++ o :: l₂ ∧
        (∀ x ∈ l₁, x.price = o.price → x.timestamp ≤ o.timestamp) ∧
        (∀ x ∈ l₂, x.price = o.price → o.timestamp < x.timestamp)) ∧
    (∀ (max_tickers : Nat) (ops : List SubmitOp),
      ∀ bk ∈ (runOps max_tickers ops).order_books,
        List.Pairwise (book_le OrderType.BUY) bk.buy_orders ∧
        List.Pairwise (book_le OrderType.SELL) bk.sell_orders) := by
  refine ⟨insert_pairwise, insert_split, ?_⟩
  intro max_tickers ops bk hbk
  obtain ⟨hpre, -⟩ := runOps_inv max_tickers ops
  exact ⟨hpre.buy_sorted bk hbk, hpre.sell_sorted bk hbk⟩

theorem C7_amended_witness :
    List.Pairwise (book_le OrderType.BUY)
      (insert_order_sorted [⟨0, OrderType.BUY, 0, 5, 10, 0, true⟩]
        ⟨1, OrderType.BUY, 0, 5, 10, 0, true⟩) ∧
    (List.Pairwise (book_le OrderType.BUY)
        (⟨0, [⟨0, OrderType.BUY, 0, 10, 90, 0, true⟩],
             [⟨1, OrderType.SELL, 0, 10, 100, 1, true⟩], 1⟩ :
          OrderBook).buy_orders ∧
      List.Pairwise (book_le OrderType.SELL)
        (⟨0, [⟨0, OrderType.BUY, 0, 10, 90, 0, true⟩],
             [⟨1, OrderType.SELL, 0, 10, 100, 1, true⟩], 1⟩ :
          OrderBook).sell_orders) := by
  constructor
  · exact C7_amended_insert_sorted.1 OrderType.BUY
      [⟨0, OrderType.BUY, 0, 5, 10, 0, true⟩]
      ⟨1, OrderType.BUY, 0, 5, 10, 0, true⟩ rfl (by simp)
  · exact C7_amended_insert_sorted.2.2 1 [⟨OrderType.BUY, "STOCK0000", 10, 90⟩,
      ⟨OrderType.SELL, "STOCK0000", 10, 100⟩] _ (by decide)

/-- C2 (amended): every committed trade's price equals the limit price of the
SELL order of the matched pair and is at most the limit price of the BUY order
of the pair, both identified among the accepted submissions — i.e.
buy-limit ≥ trade price = sell-limit, whichever side was resting. -/
theorem C2_amended_trade_price (max_tickers : Nat) (ops : List SubmitOp) :
    ∀ t ∈ (runOps max_tickers ops).executed_trades,
      (∃ s ∈ submittedTrace max_tickers ops,
        s.id = t.sell_order_id ∧ s.type = OrderType.SELL ∧ t.price = s.price) ∧
      (∃ b ∈ submittedTrace max_tickers ops,
        b.id = t.buy_order_id ∧ b.type = OrderType.BUY ∧ t.price ≤ b.price) := by
  intro t ht
  obtain ⟨hpre, -⟩ := runOps_inv max_tickers ops
  exact ⟨hpre.journal_sell t ht, hpre.journal_buy t ht⟩

theorem C2_amended_witness :
    (∃ s ∈ submittedTrace 1 [⟨OrderType.SELL, "STOCK0000", 5, 50⟩,
        ⟨OrderType.BUY, "STOCK0000", 10, 60⟩],
      s.id = (⟨1, 0, 0, 5, 50, 1⟩ : Trade).sell_order_id ∧
      s.type = OrderType.SELL ∧ (⟨1, 0, 0, 5, 50, 1⟩ : Trade).price = s.price) ∧
    (∃ b ∈ submittedTrace 1 [⟨OrderType.SELL, "STOCK0000", 5, 50⟩,
        ⟨OrderType.BUY, "STOCK0000", 10, 60⟩],
      b.id = (⟨1, 0, 0, 5, 50, 1⟩ : Trade).buy_order_id ∧
      b.type = OrderType.BUY ∧ (⟨1, 0, 0, 5, 50, 1⟩ : Trade).price ≤ b.price) :=
  C2_amended_trade_price 1 [⟨OrderType.SELL, "STOCK0000", 5, 50⟩,
      ⟨OrderType.BUY, "STOCK0000", 10, 60⟩] ⟨1, 0, 0, 5, 50, 1⟩ (by decide)
